import Mathlib

/-!
Verification of the Ecotrack aggregation pipeline (src/aggregate.py,
src/aggregate_mongo.py, src/scheduler.py).

The Python code is shallowly embedded as follows.

* Python dicts (which preserve insertion order) are modelled as association
  lists `List (K × V)`: assignment `m[k] = v` replaces the binding in place
  when `k` is present and appends it at the end otherwise (`dset`), exactly
  like a Python dict; lookup is `dget`.
* Python floats are modelled as exact rationals `ℚ`; `round(x, 2)` (Python's
  round-half-to-even) is modelled by `pyRound2`.
* Strings are manipulated through their character lists; `str.startswith`
  is `pyStartsWith` and `str.lower` is `pyLower` mapped over the characters
  (restricted to the ASCII letters plus the accented letters that occur in
  the Portuguese month names and survey labels).
* The SQL queries the views issue are fixed shapes (join + GROUP BY + SUM);
  their row-level semantics is modelled by explicit grouping functions
  (`sql_sum_by_date`, `sql_sum_by_type_date`, ...) applied to the raw table
  contents, so each view is a pure function from table rows to the list of
  documents it writes.
* The MongoDB write side is modelled by `upsertF` (update_one with
  upsert=True, keyed by _id) on an extensional store `String → Option δ`,
  and by collection replacement (delete_many then insert_one per doc) which
  simply installs the freshly computed document list.
-/

namespace Ecotrack

/-- Python dict lookup `m.get(k)` on an insertion-ordered association list. -/
def dget {K V : Type} [DecidableEq K] : List (K × V) → K → Option V
  | [], _ => none
  | (k1, v1) :: m, k => if k1 = k then some v1 else dget m k

/-- Python dict assignment `m[k] = v`: replace in place if the key is
present, append at the end otherwise. -/
def dset {K V : Type} [DecidableEq K] : List (K × V) → K → V → List (K × V)
  | [], k, v => [(k, v)]
  | (k1, v1) :: m, k, v => if k1 = k then (k, v) :: m else (k1, v1) :: dset m k v

/-- Keys of the dict, in insertion order. -/
def dkeys {K V : Type} (m : List (K × V)) : List K := m.map Prod.fst

theorem dget_dset_self {K V : Type} [DecidableEq K] (m : List (K × V)) (k : K) (v : V) :
    dget (dset m k v) k = some v := by
  induction m with
  | nil => simp [dget, dset]
  | cons p m ih =>
    obtain ⟨k1, v1⟩ := p
    by_cases h : k1 = k
    · subst h; simp [dget, dset]
    · simp [dget, dset, h, ih]

theorem dget_dset_ne {K V : Type} [DecidableEq K] (m : List (K × V)) (k k2 : K) (v : V)
    (h : k ≠ k2) : dget (dset m k v) k2 = dget m k2 := by
  induction m with
  | nil => simp [dget, dset, h]
  | cons p m ih =>
    obtain ⟨k1, v1⟩ := p
    by_cases h1 : k1 = k
    · subst h1; simp [dget, dset, h]
    · by_cases h2 : k1 = k2
      · subst h2
        simp [dget, dset, h1, Ne.symm h]
      · simp [dget, dset, h1, h2, ih]

theorem dkeys_dset {K V : Type} [DecidableEq K] (m : List (K × V)) (k : K) (v : V) :
    dkeys (dset m k v) = if k ∈ dkeys m then dkeys m else dkeys m ++ [k] := by
  induction m with
  | nil => simp [dkeys, dset]
  | cons p m ih =>
    obtain ⟨k1, v1⟩ := p
    by_cases h : k1 = k
    · subst h; simp [dkeys, dset]
    · simp only [dkeys, dset, if_neg h, List.map_cons, List.mem_cons]
      rcases eq_or_ne k k1 with h2 | h2
      · exact absurd h2.symm h
      · simp only [h2, false_or]
        by_cases h3 : k ∈ m.map Prod.fst <;> simp [dkeys, h3] at ih ⊢ <;> simp [ih]

theorem mem_dkeys_dset {K V : Type} [DecidableEq K] (m : List (K × V)) (k k2 : K) (v : V) :
    k2 ∈ dkeys (dset m k v) ↔ k2 = k ∨ k2 ∈ dkeys m := by
  rw [dkeys_dset]
  by_cases h : k ∈ dkeys m
  · simp only [if_pos h]
    constructor
    · exact fun h2 => Or.inr h2
    · rintro (rfl | h2)
      · exact h
      · exact h2
  · simp only [if_neg h, List.mem_append, List.mem_singleton]
    tauto

theorem dget_isSome_iff_mem_dkeys {K V : Type} [DecidableEq K] (m : List (K × V)) (k : K) :
    (dget m k).isSome ↔ k ∈ dkeys m := by
  induction m with
  | nil => simp [dget, dkeys]
  | cons p m ih =>
    obtain ⟨k1, v1⟩ := p
    by_cases h : k1 = k
    · subst h; simp [dget, dkeys]
    · simp [dget, dkeys, h, ih, Ne.symm h]

theorem dget_eq_none_iff {K V : Type} [DecidableEq K] (m : List (K × V)) (k : K) :
    dget m k = none ↔ k ∉ dkeys m := by
  rw [← dget_isSome_iff_mem_dkeys]
  cases h : dget m k <;> simp [h]

theorem dget_some_mem {K V : Type} [DecidableEq K] (m : List (K × V)) (k : K) (v : V)
    (h : dget m k = some v) : (k, v) ∈ m := by
  induction m with
  | nil => simp [dget] at h
  | cons p m ih =>
    obtain ⟨k1, v1⟩ := p
    by_cases h1 : k1 = k
    · subst h1
      simp [dget] at h
      simp [h]
    · simp [dget, h1] at h
      exact List.mem_cons_of_mem _ (ih h)

theorem nodup_dkeys_dset {K V : Type} [DecidableEq K] (m : List (K × V)) (k : K) (v : V)
    (h : (dkeys m).Nodup) : (dkeys (dset m k v)).Nodup := by
  rw [dkeys_dset]
  by_cases h2 : k ∈ dkeys m
  · simpa [h2] using h
  · simp only [if_neg h2]
    refine List.Nodup.append h (List.nodup_singleton k) ?_
    intro a ha hb
    rw [List.mem_singleton] at hb
    subst hb
    exact h2 ha

/-- The accumulation pattern
`acc[k] = acc.get(k, 0) + value` folded over rows (used with tuple keys in
`aggregate_commerce_revenue_expense_grouped` and with plain keys by the SQL
`SUM ... GROUP BY` row sources). -/
def group_add {α K : Type} [DecidableEq K] (key : α → K) (val : α → ℚ)
    (init : List (K × ℚ)) (rows : List α) : List (K × ℚ) :=
  rows.foldl (fun acc r => dset acc (key r) ((dget acc (key r)).getD 0 + val r)) init

/-- The accumulation pattern `acc.setdefault(k, []).append(item)` folded
over rows (used by every per-classification series builder). -/
def dappend {K β : Type} [DecidableEq K] (m : List (K × List β)) (k : K) (b : β) :
    List (K × List β) :=
  dset m k ((dget m k).getD [] ++ [b])

/-- The term `group_append key item init rows` folds `dappend` over `rows`. -/
def group_append {α K β : Type} [DecidableEq K] (key : α → K) (item : α → β)
    (init : List (K × List β)) (rows : List α) : List (K × List β) :=
  rows.foldl (fun acc r => dappend acc (key r) (item r)) init

theorem dget_group_add {α K : Type} [DecidableEq K] (key : α → K) (val : α → ℚ)
    (rows : List α) (init : List (K × ℚ)) (k : K) :
    dget (group_add key val init rows) k =
      if k ∈ rows.map key
      then some ((dget init k).getD 0 + ((rows.filter (fun r => key r = k)).map val).sum)
      else dget init k := by
  induction rows generalizing init with
  | nil => simp [group_add]
  | cons r rows ih =>
    have hstep : group_add key val init (r :: rows) =
        group_add key val (dset init (key r) ((dget init (key r)).getD 0 + val r)) rows := rfl
    rw [hstep, ih]
    by_cases h : key r = k
    · subst h
      rw [List.filter_cons_of_pos (by simp)]
      rw [dget_dset_self]
      by_cases h2 : key r ∈ rows.map key
      · simp [h2, add_assoc]
      · have h3 : rows.filter (fun r2 => key r2 = key r) = [] := by
          rw [List.filter_eq_nil_iff]
          intro a ha
          simp only [decide_eq_true_eq]
          intro hc
          exact h2 (hc ▸ List.mem_map_of_mem key ha)
        simp [h2, h3]
    · rw [List.filter_cons_of_neg (by simp [h])]
      rw [dget_dset_ne _ _ _ _ h]
      simp [Ne.symm h]

theorem dget_group_append {α K β : Type} [DecidableEq K] (key : α → K) (item : α → β)
    (rows : List α) (init : List (K × List β)) (k : K) :
    dget (group_append key item init rows) k =
      if k ∈ rows.map key
      then some ((dget init k).getD [] ++ (rows.filter (fun r => key r = k)).map item)
      else dget init k := by
  induction rows generalizing init with
  | nil => simp [group_append]
  | cons r rows ih =>
    have hstep : group_append key item init (r :: rows) =
        group_append key item (dappend init (key r) (item r)) rows := rfl
    rw [hstep, ih]
    by_cases h : key r = k
    · subst h
      rw [List.filter_cons_of_pos (by simp)]
      rw [dappend, dget_dset_self]
      by_cases h2 : key r ∈ rows.map key
      · simp [h2]
      · have h3 : rows.filter (fun r2 => key r2 = key r) = [] := by
          rw [List.filter_eq_nil_iff]
          intro a ha
          simp only [decide_eq_true_eq]
          intro hc
          exact h2 (hc ▸ List.mem_map_of_mem key ha)
        simp [h2, h3]
    · rw [List.filter_cons_of_neg (by simp [h])]
      rw [dappend, dget_dset_ne _ _ _ _ h]
      simp [Ne.symm h]

theorem mem_dkeys_group_append {α K β : Type} [DecidableEq K] (key : α → K) (item : α → β)
    (rows : List α) (init : List (K × List β)) (k : K) :
    k ∈ dkeys (group_append key item init rows) ↔ k ∈ dkeys init ∨ k ∈ rows.map key := by
  induction rows generalizing init with
  | nil => simp [group_append]
  | cons r rows ih =>
    have hstep : group_append key item init (r :: rows) =
        group_append key item (dappend init (key r) (item r)) rows := rfl
    rw [hstep, ih, dappend, mem_dkeys_dset]
    simp only [List.map_cons, List.mem_cons]
    tauto

theorem nodup_dkeys_group_append {α K β : Type} [DecidableEq K] (key : α → K) (item : α → β)
    (rows : List α) (init : List (K × List β)) (h : (dkeys init).Nodup) :
    (dkeys (group_append key item init rows)).Nodup := by
  induction rows generalizing init with
  | nil => simpa [group_append]
  | cons r rows ih =>
    have hstep : group_append key item init (r :: rows) =
        group_append key item (dappend init (key r) (item r)) rows := rfl
    rw [hstep]
    exact ih _ (nodup_dkeys_dset _ _ _ h)

/-- Model of Python `str.lower` at the character level, restricted to the
characters that actually occur in the survey labels: ASCII uppercase
letters and the accented Latin capitals. Every other character is fixed. -/
def pyLower (c : Char) : Char :=
  match c with
  | 'A' => 'a' | 'B' => 'b' | 'C' => 'c' | 'D' => 'd' | 'E' => 'e' | 'F' => 'f'
  | 'G' => 'g' | 'H' => 'h' | 'I' => 'i' | 'J' => 'j' | 'K' => 'k' | 'L' => 'l'
  | 'M' => 'm' | 'N' => 'n' | 'O' => 'o' | 'P' => 'p' | 'Q' => 'q' | 'R' => 'r'
  | 'S' => 's' | 'T' => 't' | 'U' => 'u' | 'V' => 'v' | 'W' => 'w' | 'X' => 'x'
  | 'Y' => 'y' | 'Z' => 'z'
  | 'Ç' => 'ç' | 'Á' => 'á' | 'Â' => 'â' | 'Ã' => 'ã' | 'É' => 'é' | 'Ê' => 'ê'
  | 'Í' => 'í' | 'Ó' => 'ó' | 'Ô' => 'ô' | 'Õ' => 'õ' | 'Ú' => 'ú' | 'À' => 'à'
  | c => c

/-- Model of Python `str.startswith`. -/
def pyStartsWith (s p : String) : Bool := p.data.isPrefixOf s.data

/-- The division resolver defined inside `aggregate_commerce_division`
(src/aggregate.py lines 147-153).  A code with none of the three prefixes
falls off the end of the if/elif chain, so Python returns `None`. -/
def get_division_name (type_code : String) : Option String :=
  if pyStartsWith type_code "2." then some "vehicle_parts_motorcycle"
  else if pyStartsWith type_code "3." then some "wholesale_trade"
  else if pyStartsWith type_code "4." then some "retail_trade"
  else none

/-- The division resolver defined inside
`aggregate_commerce_revenue_expense_grouped` (src/aggregate.py lines
393-400), which instead ends with `return "other"`. -/
def get_division_name_grouped (type_code : String) : String :=
  if pyStartsWith type_code "2." then "vehicle_parts_motorcycle"
  else if pyStartsWith type_code "3." then "wholesale_trade"
  else if pyStartsWith type_code "4." then "retail_trade"
  else "other"

/-- The character class `[a-zç]` of the month-name capture group. -/
def isMonthChar (c : Char) : Bool := ('a' ≤ c && c ≤ 'z') || c = 'ç'

/-- The regex whitespace class `\s` (Python ASCII whitespace). -/
def isPySpace (c : Char) : Bool :=
  c = ' ' || c = '\t' || c = '\n' || c = '\r' || c = '\x0b' || c = '\x0c'

/-- The regex digit class `\d` (restricted to ASCII digits). -/
def isDigitChar (c : Char) : Bool := '0' ≤ c && c ≤ '9'

/-- Model of `re.match(r"([a-zç]+)\s+(\d{4})", cs)`: anchored at the start
of the string only (not at its end), so trailing characters after the four
digits are ignored.  Returns the two capture groups.  Since the three
character classes are pairwise disjoint, greedy matching without
backtracking is equivalent to the regex engine. -/
def regex_month_year (cs : List Char) : Option (List Char × List Char) :=
  let letters := cs.takeWhile isMonthChar
  let rest := cs.dropWhile isMonthChar
  if letters.isEmpty then none
  else
    let sp := rest.takeWhile isPySpace
    let rest2 := rest.dropWhile isPySpace
    if sp.isEmpty then none
    else
      match rest2 with
      | d1 :: d2 :: d3 :: d4 :: _ =>
        if isDigitChar d1 && isDigitChar d2 && isDigitChar d3 && isDigitChar d4
        then some (letters, [d1, d2, d3, d4]) else none
      | _ => none

/-- The 12 Portuguese month names, exactly as in the `month_map` literal
repeated in `aggregate_industry_production`, `aggregate_service_volume_monthly`
and `aggregate_service_revenue_monthly`. -/
def month_map : List (String × String) :=
  [("janeiro", "01"), ("fevereiro", "02"), ("março", "03"), ("abril", "04"),
   ("maio", "05"), ("junho", "06"), ("julho", "07"), ("agosto", "08"),
   ("setembro", "09"), ("outubro", "10"), ("novembro", "11"), ("dezembro", "12")]

/-- The month-year parser inlined in the monthly-series views
(src/aggregate.py lines 474-489, 604-619, 757-772):
`match = re.match(r"([a-zç]+)\s+(\d{4})", raw_date.lower())`, then a lookup
of the captured month name in `month_map`; any failure skips the
observation (`continue`), and on success the key is `f"{year}-{month}"`. -/
def parse_month_year (raw_date : String) : Option String :=
  match regex_month_year (raw_date.data.map pyLower) with
  | none => none
  | some (m, y) =>
    match dget month_map (String.mk m) with
    | none => none
    | some mm => some (String.mk y ++ "-" ++ mm)

/-- Round-half-to-even on the integer grid, the rounding mode of Python's
builtin `round`. -/
def round_half_even (x : ℚ) : ℤ :=
  if x - ⌊x⌋ < 1/2 then ⌊x⌋
  else if 1/2 < x - ⌊x⌋ then ⌊x⌋ + 1
  else if ⌊x⌋ % 2 = 0 then ⌊x⌋ else ⌊x⌋ + 1

/-- Model of Python `round(x, 2)`, with floats read as exact rationals. -/
def pyRound2 (x : ℚ) : ℚ := (round_half_even (x * 100) : ℚ) / 100

/-- Lexicographic comparison of character lists by code point: the order
Python uses when comparing the `YYYY-MM` date strings in
`series.sort(key=lambda x: x["date"])`. -/
def lexLe : List Char → List Char → Bool
  | [], _ => true
  | _ :: _, [] => false
  | a :: as, b :: bs => if a = b then lexLe as bs else decide (a < b)

theorem lexLe_total (a b : List Char) : lexLe a b = true ∨ lexLe b a = true := by
  induction a generalizing b with
  | nil => left; rfl
  | cons x xs ih =>
    cases b with
    | nil => right; rfl
    | cons y ys =>
      by_cases h : x = y
      · subst h
        simpa [lexLe] using ih ys
      · rcases lt_trichotomy x y with h2 | h2 | h2
        · left; simp [lexLe, h, h2]
        · exact absurd h2 h
        · right
          simp [lexLe, Ne.symm h, h2]

theorem lexLe_trans (a b c : List Char) (h1 : lexLe a b = true) (h2 : lexLe b c = true) :
    lexLe a c = true := by
  induction a generalizing b c with
  | nil => rfl
  | cons x xs ih =>
    cases b with
    | nil => simp [lexLe] at h1
    | cons y ys =>
      cases c with
      | nil => simp [lexLe] at h2
      | cons z zs =>
        by_cases hxy : x = y
        · subst hxy
          by_cases hyz : x = z
          · subst hyz
            simp only [lexLe, if_pos rfl] at h1 h2 ⊢
            exact ih ys zs h1 h2
          · simp only [lexLe, if_pos rfl] at h1
            simp only [lexLe, if_neg hyz] at h2 ⊢
            exact h2
        · by_cases hyz : y = z
          · subst hyz
            simp only [lexLe, if_neg hxy] at h1 ⊢
            exact h1
          · simp only [lexLe, if_neg hxy] at h1
            simp only [lexLe, if_neg hyz] at h2
            have hxz : x < z := lt_trans (by exact_mod_cast of_decide_eq_true h1)
              (by exact_mod_cast of_decide_eq_true h2)
            by_cases hxz2 : x = z
            · exact absurd hxz2 (ne_of_lt hxz)
            · simp [lexLe, hxz2, hxz]

/-- One character step of the `_id` slug construction
`unicodedata.normalize("NFKD", s).encode("ASCII", "ignore")`: the NFKD
decomposition of the accented Latin letters occurring in the survey labels
followed by dropping of every non-ASCII character (the combining marks
disappear, bare non-Latin characters are dropped whole). -/
def nfkd_ascii (c : Char) : Option Char :=
  if c.toNat < 128 then some c else
  match c with
  | 'á' => some 'a' | 'â' => some 'a' | 'ã' => some 'a' | 'à' => some 'a'
  | 'ç' => some 'c' | 'é' => some 'e' | 'ê' => some 'e' | 'í' => some 'i'
  | 'ó' => some 'o' | 'ô' => some 'o' | 'õ' => some 'o' | 'ú' => some 'u'
  | 'Á' => some 'A' | 'Â' => some 'A' | 'Ã' => some 'A' | 'À' => some 'A'
  | 'Ç' => some 'C' | 'É' => some 'E' | 'Ê' => some 'E' | 'Í' => some 'I'
  | 'Ó' => some 'O' | 'Ô' => some 'O' | 'Õ' => some 'O' | 'Ú' => some 'U'
  | _ => none

/-- The `_id` slug used by the per-classification views:
NFKD-normalize, strip non-ASCII, lowercase, replace spaces by
underscores. -/
def slugify (s : String) : String :=
  String.mk (((s.data.filterMap nfkd_ascii).map pyLower).map
    (fun c => if c = ' ' then '_' else c))

/-- A `(classification, period_label, metric_value)` row as returned by the
joined queries of the industry and service views. -/
structure SeriesRow where
  cls : String
  raw_date : String
  value : ℚ
deriving DecidableEq

/-- A `date/value` record of a per-classification time series document. -/
structure Entry where
  date : String
  value : ℚ
deriving DecidableEq

/-- Ordering of series records by their `YYYY-MM` key, the comparison made
by `series.sort(key=lambda x: x["date"])`. -/
def dateLe (a b : Entry) : Prop := lexLe a.date.data b.date.data = true

instance : DecidableRel dateLe := fun a b => instDecidableEqBool (lexLe a.date.data b.date.data) true

instance : IsTotal Entry dateLe := ⟨fun a b => lexLe_total a.date.data b.date.data⟩

instance : IsTrans Entry dateLe := ⟨fun a b c => lexLe_trans a.date.data b.date.data c.date.data⟩

/-- Python's stable ascending `list.sort(key=lambda x: x["date"])`,
modelled by insertion sort (any stable sort computes the same list). -/
def sort_by_date (l : List Entry) : List Entry := List.insertionSort dateLe l

/-- The parse-and-shape step of the monthly series loops: a row whose date
parses contributes `(classification, record)`; a row whose date does not
parse is skipped (`continue`). -/
def month_entry (r : SeriesRow) : Option (String × Entry) :=
  (parse_month_year r.raw_date).map (fun d => (r.cls, Entry.mk d (pyRound2 r.value)))

/-- The `series_by_activity` / `series_by_segment` dict built by
`aggregate_industry_production`, `aggregate_service_volume_monthly` and
`aggregate_service_revenue_monthly`: per-classification record lists in row
order, unparseable dates skipped. -/
def series_by_cls (rows : List SeriesRow) : List (String × List Entry) :=
  rows.foldl (fun acc r =>
    match month_entry r with
    | none => acc
    | some (c, e) => dappend acc c e) []

/-- The term `aggregate_industry_production` (src/aggregate.py lines 445-517), from
the joined production rows to the documents inserted after
`delete_many`: one per classification slug, series sorted by date,
values rounded to 2 decimals, no non-zero filter. -/
def aggregate_industry_production (rows : List SeriesRow) : List (String × List Entry) :=
  (series_by_cls rows).map (fun p => (slugify p.1, sort_by_date p.2))

/-- The term `aggregate_industry_revenue_yearly` (src/aggregate.py lines 519-573):
the query already sums by (classification, date) and orders by date; the
Python loop appends records in row order (no parsing, no sort, no
filter) and keys documents by slug. -/
def aggregate_industry_revenue_yearly (rows : List SeriesRow) : List (String × List Entry) :=
  (group_append (fun r => r.cls) (fun r => Entry.mk r.raw_date (pyRound2 r.value)) [] rows).map
    (fun p => (slugify p.1, p.2))

/-- The `is_series_nonzero` predicate of the service views. -/
def is_series_nonzero (series : List Entry) : Bool := series.any (fun e => e.value ≠ 0)

/-- The term `aggregate_service_volume_monthly` (src/aggregate.py lines 575-653):
like industry production but classifications whose whole series is zero
are skipped before insertion. -/
def aggregate_service_volume_monthly (rows : List SeriesRow) : List (String × List Entry) :=
  (((series_by_cls rows).map (fun p => (p.1, sort_by_date p.2))).filter
    (fun p => is_series_nonzero p.2)).map (fun p => (slugify p.1, p.2))

/-- The term `aggregate_service_revenue_monthly` (src/aggregate.py lines 728-806):
identical shape to the service volume view, over the revenue rows. -/
def aggregate_service_revenue_monthly (rows : List SeriesRow) : List (String × List Entry) :=
  (((series_by_cls rows).map (fun p => (p.1, sort_by_date p.2))).filter
    (fun p => is_series_nonzero p.2)).map (fun p => (slugify p.1, p.2))

/-- A `(cg.type, date, value)` row of the joined commerce queries. -/
structure DivRow where
  type_code : String
  date : String
  volume : ℚ
deriving DecidableEq

/-- The three fixed buckets initialized for each period by
`aggregate_commerce_division`. -/
structure Buckets where
  vehicle_parts_motorcycle : ℚ
  wholesale_trade : ℚ
  retail_trade : ℚ
deriving DecidableEq

/-- The all-zero initial bucket vector. -/
def zero_buckets : Buckets := Buckets.mk 0 0 0

/-- The term `if division_name in data_by_date[date]: data_by_date[date][division_name] += value`:
the inner dict always holds exactly the three fixed keys, so an unmatched
or `None` division name adds to no bucket. -/
def bucket_add (b : Buckets) (division_name : Option String) (v : ℚ) : Buckets :=
  match division_name with
  | some "vehicle_parts_motorcycle" =>
      Buckets.mk (b.vehicle_parts_motorcycle + v) b.wholesale_trade b.retail_trade
  | some "wholesale_trade" =>
      Buckets.mk b.vehicle_parts_motorcycle (b.wholesale_trade + v) b.retail_trade
  | some "retail_trade" =>
      Buckets.mk b.vehicle_parts_motorcycle b.wholesale_trade (b.retail_trade + v)
  | _ => b

/-- The `data_by_date` dict of `aggregate_commerce_division`
(src/aggregate.py lines 155-170): each row first ensures its period is
present with the three zero buckets, then adds its value to the resolved
bucket (if any). -/
def commerce_division_data_by_date (rows : List DivRow) : List (String × Buckets) :=
  rows.foldl (fun acc r =>
    dset acc r.date
      (bucket_add ((dget acc r.date).getD zero_buckets) (get_division_name r.type_code) r.volume)) []

/-- One `data` element of a commerce division document. -/
structure DivItem where
  date : String
  name : String
  value : ℚ
deriving DecidableEq

/-- The fixed three-element `data` list emitted for each period by
`aggregate_commerce_division` (src/aggregate.py lines 172-189). -/
def division_doc (date : String) (b : Buckets) : List DivItem :=
  [DivItem.mk date "vehicle_parts_motorcycle" b.vehicle_parts_motorcycle,
   DivItem.mk date "wholesale_trade" b.wholesale_trade,
   DivItem.mk date "retail_trade" b.retail_trade]

/-- The term `aggregate_commerce_division` as a whole: one document per period, in
dict order, each upserted at `_id = date`. -/
def aggregate_commerce_division (rows : List DivRow) : List (String × List DivItem) :=
  (commerce_division_data_by_date rows).map (fun p => (p.1, division_doc p.1 p.2))

/-- The `SELECT date, sum(volume) ... GROUP BY date` row source of
`aggregate_commerce_volume`, modelled over the raw `(date, volume)`
contents of the volume table (result order is irrelevant to every claim,
so first-occurrence order is used). -/
def sql_sum_by_date (t : List (String × ℚ)) : List (String × ℚ) :=
  group_add Prod.fst Prod.snd [] t

/-- The document written by `aggregate_commerce_volume` for one date. -/
structure VolumeDoc where
  date : String
  value : ℚ
deriving DecidableEq

/-- The term `aggregate_commerce_volume` (src/aggregate.py lines 73-117): one
`(date, value)` document per summed row, upserted at `_id = date`, the
value emitted unrounded. -/
def aggregate_commerce_volume (volume_rows : List (String × ℚ)) : List (String × VolumeDoc) :=
  (sql_sum_by_date volume_rows).map (fun p => (p.1, VolumeDoc.mk p.1 p.2))

/-- One `data` element of a commerce ranking document. -/
structure RankItem where
  date : String
  name : String
  value : ℚ
deriving DecidableEq

/-- The term `aggregate_commerce_ranking` (src/aggregate.py lines 205-264): rows
grouped into per-date lists, values emitted unrounded. -/
def aggregate_commerce_ranking (rows : List DivRow) : List (String × List RankItem) :=
  group_append (fun r => r.date) (fun r => RankItem.mk r.date r.type_code r.volume) [] rows

/-- One `data` element of the combined revenue/expense documents. -/
structure REItem where
  date : String
  name : String
  value : ℚ
deriving DecidableEq

/-- The term `aggregate_commerce_revenue_expense_year` (src/aggregate.py lines
266-348): the two queries sum by date; each summed row appends an item
tagged `revenue` or `expense` with value `round(v / 1_000_000, 2)`. -/
def aggregate_commerce_revenue_expense_year (rev exp : List (String × ℚ)) :
    List (String × List REItem) :=
  group_append Prod.fst (fun p => REItem.mk p.1 "expense" (pyRound2 (p.2 / 1000000)))
    (group_append Prod.fst (fun p => REItem.mk p.1 "revenue" (pyRound2 (p.2 / 1000000)))
      [] (sql_sum_by_date rev))
    (sql_sum_by_date exp)

/-- The `SELECT cg.type, t.date, SUM(v) ... GROUP BY cg.type, t.date` row
source of the grouped revenue/expense view, over the raw joined rows. -/
def sql_sum_by_type_date (t : List DivRow) : List ((String × String) × ℚ) :=
  group_add (fun r => (r.type_code, r.date)) (fun r => r.volume) [] t

/-- One accumulation step of `aggregated_by_date` in
`aggregate_commerce_revenue_expense_grouped` (src/aggregate.py lines
402-420): `date_data = aggregated_by_date.setdefault(date, dict())` then
`date_data[(name, type_name)] = date_data.get((name, type_name), 0) + value`. -/
def re_grouped_step (name : String) (acc : List (String × List ((String × String) × ℚ)))
    (row : (String × String) × ℚ) : List (String × List ((String × String) × ℚ)) :=
  let date := row.1.2
  let type_name := get_division_name_grouped row.1.1
  let date_data := (dget acc date).getD []
  dset acc date
    (dset date_data (name, type_name) ((dget date_data (name, type_name)).getD 0 + row.2))

/-- The `aggregated_by_date` two-level dict: the revenue rows are folded
first, then the expense rows. -/
def aggregated_by_date (rev exp : List DivRow) :
    List (String × List ((String × String) × ℚ)) :=
  (sql_sum_by_type_date exp).foldl (re_grouped_step "expense")
    ((sql_sum_by_type_date rev).foldl (re_grouped_step "revenue") [])

/-- One `data` element of a grouped revenue/expense document. -/
structure REGItem where
  date : String
  name : String
  type_name : String
  value : ℚ
deriving DecidableEq

/-- The term `aggregate_commerce_revenue_expense_grouped` (src/aggregate.py lines
350-443): one document per period, each item scaled by
`round(value / 1_000_000, 2)` at emission. -/
def aggregate_commerce_revenue_expense_grouped (rev exp : List DivRow) :
    List (String × List REGItem) :=
  (aggregated_by_date rev exp).map (fun p =>
    (p.1, p.2.map (fun q => REGItem.mk p.1 q.1.1 q.1.2 (pyRound2 (q.2 / 1000000)))))

/-- Two-level dict lookup into `aggregated_by_date`. -/
def inner_get (m : List (String × List ((String × String) × ℚ))) (d : String)
    (kk : String × String) : Option ℚ :=
  (dget m d).bind (fun inner => dget inner kk)

/-- The term `update_one(filter, set, upsert=True)` on a collection keyed by `_id`,
as an extensional map update. -/
def upsertF {δ : Type} (st : String → Option δ) (k : String) (d : δ) : String → Option δ :=
  fun k2 => if k2 = k then some d else st k2

/-- A view's whole write pass over an upsert-style collection. -/
def apply_upserts {δ : Type} (ws : List (String × δ)) (st : String → Option δ) :
    String → Option δ :=
  ws.foldl (fun s p => upsertF s p.1 p.2) st

/-- The last document written for a key during one write pass. -/
def last_write {δ : Type} : List (String × δ) → String → Option δ
  | [], _ => none
  | (k1, d) :: tl, k =>
    match last_write tl k with
    | some d2 => some d2
    | none => if k1 = k then some d else none

/-- The term `collection.delete_many(dict())` followed by one `insert_one` per
computed document: the previous collection contents are discarded
entirely. -/
def replace_collection {δ : Type} (prev docs : List (String × δ)) : List (String × δ) := docs

/-- The document store state after a pipeline run: one field per modelled
collection, upsert-style collections as extensional maps keyed by `_id`,
replace-style collections as the inserted document lists. -/
structure MongoState where
  commerce_volume : String → Option VolumeDoc
  commerce_division : String → Option (List DivItem)
  commerce_ranking : String → Option (List RankItem)
  commerce_revenue_expense_year : String → Option (List REItem)
  commerce_revenue_expense_grouped : String → Option (List REGItem)
  industry_production_series : List (String × List Entry)
  industry_revenue_yearly : List (String × List Entry)
  service_volume_monthly : List (String × List Entry)
  service_revenue_monthly : List (String × List Entry)

/-- One snapshot of the relational data, as the fixed queries of the nine
modelled views read it (one row list per query shape). -/
structure AggInput where
  commerce_volume_rows : List (String × ℚ)
  commerce_division_rows : List DivRow
  commerce_ranking_rows : List DivRow
  commerce_revenue_rows : List DivRow
  commerce_expense_rows : List DivRow
  industry_production_rows : List SeriesRow
  industry_revenue_rows : List SeriesRow
  service_volume_rows : List SeriesRow
  service_revenue_rows : List SeriesRow

/-- One run of `aggregate` (src/aggregate.py lines 22-68) over the
modelled views: every view recomputes its documents from the relational
snapshot and writes them, upsert-style views by per-key `update_one`,
per-classification views by collection replacement. -/
def run_aggregate (inp : AggInput) (st : MongoState) : MongoState :=
  MongoState.mk
    (apply_upserts (aggregate_commerce_volume inp.commerce_volume_rows) st.commerce_volume)
    (apply_upserts (aggregate_commerce_division inp.commerce_division_rows) st.commerce_division)
    (apply_upserts (aggregate_commerce_ranking inp.commerce_ranking_rows) st.commerce_ranking)
    (apply_upserts
      (aggregate_commerce_revenue_expense_year
        (inp.commerce_revenue_rows.map (fun r => (r.date, r.volume)))
        (inp.commerce_expense_rows.map (fun r => (r.date, r.volume))))
      st.commerce_revenue_expense_year)
    (apply_upserts
      (aggregate_commerce_revenue_expense_grouped inp.commerce_revenue_rows
        inp.commerce_expense_rows)
      st.commerce_revenue_expense_grouped)
    (replace_collection st.industry_production_series
      (aggregate_industry_production inp.industry_production_rows))
    (replace_collection st.industry_revenue_yearly
      (aggregate_industry_revenue_yearly inp.industry_revenue_rows))
    (replace_collection st.service_volume_monthly
      (aggregate_service_volume_monthly inp.service_volume_rows))
    (replace_collection st.service_revenue_monthly
      (aggregate_service_revenue_monthly inp.service_revenue_rows))

/-- The term `LIKE %s` with pattern `f"%{year}%"`: substring containment. -/
def has_sub (needle : List Char) : List Char → Bool
  | [] => needle.isEmpty
  | c :: t => needle.isPrefixOf (c :: t) || has_sub needle t

/-- String-level wrapper for `has_sub`. -/
def sql_like_contains (s sub : String) : Bool := has_sub sub.data s.data

/-- Descending order on summed values, the `ORDER BY total DESC` of the
ranking queries. -/
def valGe (a b : String × ℚ) : Prop := b.2 ≤ a.2

instance : DecidableRel valGe := fun a b => Rat.instDecidableLe b.2 a.2

instance : IsTotal (String × ℚ) valGe := ⟨fun a b => le_total b.2 a.2⟩

instance : IsTrans (String × ℚ) valGe := ⟨fun _ _ _ h1 h2 => le_trans h2 h1⟩

/-- The ranking query of `service_volume_ranking`
(src/aggregate_mongo.py lines 325-361): filter rows whose date contains
the year, `SUM ... GROUP BY service`, `ORDER BY total DESC`, `LIMIT top_n`
(ties broken arbitrarily by the engine; a deterministic stable sort
refines it, and the claims below assume distinct sums anyway). -/
def service_volume_ranking (rows : List SeriesRow) (year : String) (top_n : ℕ) :
    List (String × ℚ) :=
  (List.insertionSort valGe
    (group_add (fun r => r.cls) (fun r => r.value) []
      (rows.filter (fun r => sql_like_contains r.raw_date year)))).take top_n

/-- The ranking query of `service_revenue_ranking`
(src/aggregate_mongo.py lines 416-450), identical in shape. -/
def service_revenue_ranking (rows : List SeriesRow) (year : String) (top_n : ℕ) :
    List (String × ℚ) :=
  (List.insertionSort valGe
    (group_add (fun r => r.cls) (fun r => r.value) []
      (rows.filter (fun r => sql_like_contains r.raw_date year)))).take top_n

/-- Whether a view raised. -/
def is_view_error {E : Type} (v : Except E Unit) : Bool :=
  match v with
  | .error _ => true
  | .ok _ => false

/-- The control flow of `aggregate` (src/aggregate.py lines 32-71) run
under `update_data` (src/scheduler.py lines 34-69): the eleven view calls
are executed in order inside one `try` block whose `except` clause logs
and re-raises, so the first raising view ends the run.  A view is
abstracted to its outcome; the result is the list of indices of the views
whose computation started, paired with the propagated error if any. -/
def run_sequence {E : Type} : List (Except E Unit) → ℕ → List ℕ × Option E
  | [], _ => ([], none)
  | v :: rest, i =>
    match v with
    | .ok _ =>
      let p := run_sequence rest (i + 1)
      (i :: p.1, p.2)
    | .error e => ([i], some e)

/-- One orchestrated aggregation run over a list of view outcomes. -/
def aggregate_run {E : Type} (views : List (Except E Unit)) : List ℕ × Option E :=
  run_sequence views 0

theorem run_sequence_spec {E : Type} (views : List (Except E Unit)) (i0 i : ℕ) (e : E)
    (hi : views.get? i = some (Except.error e))
    (hok : ∀ j, j < i → views.get? j = some (Except.ok ())) :
    run_sequence views i0 = ((List.range (i + 1)).map (i0 + ·), some e) := by
  induction views generalizing i0 i with
  | nil => simp at hi
  | cons v rest ih =>
    cases i with
    | zero =>
      simp only [List.get?] at hi
      cases hi
      simp [run_sequence, List.range_succ]
    | succ n =>
      have hv : v = Except.ok () := by
        have := hok 0 (Nat.succ_pos n)
        simpa using this
      subst hv
      have hrest : rest.get? n = some (Except.error e) := by simpa using hi
      have hokr : ∀ j, j < n → rest.get? j = some (Except.ok ()) := by
        intro j hj
        have := hok (j + 1) (Nat.succ_lt_succ hj)
        simpa using this
      have hih := ih (i0 + 1) n hrest hokr
      simp only [run_sequence, hih]
      have hmap : List.map (fun x => i0 + x) (List.range (n + 1 + 1)) =
          i0 :: List.map (fun x => i0 + 1 + x) (List.range (n + 1)) := by
        rw [List.range_succ_eq_map]
        simp only [List.map_cons, Nat.add_zero, List.map_map]
        refine congrArg _ (List.map_congr_left ?_)
        intro a _
        simp only [Function.comp_apply]
        omega
      rw [hmap]

/-- C1 (counterexample): with the view outcomes `[ok, error, ok]` exactly
one view fails, yet the orchestrated run `aggregate_run` only executes
views 0 and 1 — view 2's computation and write never run, because
`aggregate` wraps all view calls in a single try/except that re-raises. -/
theorem orchestrator_one_failing_view_blocks_rest_counterexample :
    ((([Except.ok (), Except.error "boom", Except.ok ()] :
        List (Except String Unit)).filter is_view_error).length = 1) ∧
    (aggregate_run ([Except.ok (), Except.error "boom", Except.ok ()] :
        List (Except String Unit))).1 = [0, 1] ∧
    2 ∉ (aggregate_run ([Except.ok (), Except.error "boom", Except.ok ()] :
        List (Except String Unit))).1 ∧
    ([Except.ok (), Except.error "boom", Except.ok ()] :
        List (Except String Unit)).length = 3 :=
  ⟨rfl, rfl, by decide, rfl⟩

/-- C1 (amended): if view `i` raises and every view before it succeeds,
the orchestrator executes exactly views `0..i`, aborts the run, and
propagates the error: the views after the failing one never execute. -/
theorem orchestrator_aborts_at_first_failing_view {E : Type}
    (views : List (Except E Unit)) (i : ℕ) (e : E)
    (hi : views.get? i = some (Except.error e))
    (hok : ∀ j, j < i → views.get? j = some (Except.ok ())) :
    aggregate_run views = (List.range (i + 1), some e) ∧
    ∀ j, i < j → j ∉ (aggregate_run views).1 := by
  have h := run_sequence_spec views 0 i e hi hok
  have h2 : aggregate_run views = (List.range (i + 1), some e) := by
    rw [aggregate_run, h]
    simp
  refine ⟨h2, ?_⟩
  intro j hj hmem
  rw [h2] at hmem
  simp only [List.mem_range] at hmem
  omega

/-- Witness for the amended C1 theorem at the concrete run `[ok, error, ok]`. -/
theorem orchestrator_aborts_at_first_failing_view_witness :
    aggregate_run ([Except.ok (), Except.error "boom", Except.ok ()] :
        List (Except String Unit)) = ([0, 1], some "boom") ∧
    2 ∉ (aggregate_run ([Except.ok (), Except.error "boom", Except.ok ()] :
        List (Except String Unit))).1 := by
  have h := orchestrator_aborts_at_first_failing_view
    ([Except.ok (), Except.error "boom", Except.ok ()] : List (Except String Unit)) 1 "boom"
    rfl
    (fun j hj => by
      cases j with
      | zero => rfl
      | succ n => omega)
  refine ⟨?_, h.2 2 (by omega)⟩
  rw [h.1]
  rfl

/-- C2: the division resolver maps codes with prefix `2.` to
`vehicle_parts_motorcycle`, `3.` to `wholesale_trade`, `4.` to
`retail_trade`; a code with none of the prefixes resolves to `None` in
`aggregate_commerce_division` (the observation adds to no bucket) and to
`other` in `aggregate_commerce_revenue_expense_grouped`. -/
theorem resolve_division_prefix_rules (code : String) :
    (pyStartsWith code "2." = true →
      get_division_name code = some "vehicle_parts_motorcycle" ∧
      get_division_name_grouped code = "vehicle_parts_motorcycle") ∧
    (pyStartsWith code "2." = false → pyStartsWith code "3." = true →
      get_division_name code = some "wholesale_trade" ∧
      get_division_name_grouped code = "wholesale_trade") ∧
    (pyStartsWith code "2." = false → pyStartsWith code "3." = false →
      pyStartsWith code "4." = true →
      get_division_name code = some "retail_trade" ∧
      get_division_name_grouped code = "retail_trade") ∧
    (pyStartsWith code "2." = false → pyStartsWith code "3." = false →
      pyStartsWith code "4." = false →
      get_division_name code = none ∧ get_division_name_grouped code = "other") := by
  refine ⟨?_, ?_, ?_, ?_⟩ <;> intros <;>
    simp_all [get_division_name, get_division_name_grouped]

/-- Witness for the C2 resolver theorem at one code per prefix class. -/
theorem resolve_division_prefix_rules_witness :
    (get_division_name "2.1" = some "vehicle_parts_motorcycle" ∧
      get_division_name_grouped "2.1" = "vehicle_parts_motorcycle") ∧
    (get_division_name "3.7" = some "wholesale_trade" ∧
      get_division_name_grouped "3.7" = "wholesale_trade") ∧
    (get_division_name "4.2" = some "retail_trade" ∧
      get_division_name_grouped "4.2" = "retail_trade") ∧
    (get_division_name "9.9" = none ∧ get_division_name_grouped "9.9" = "other") :=
  ⟨(resolve_division_prefix_rules "2.1").1 (by decide),
   (resolve_division_prefix_rules "3.7").2.1 (by decide) (by decide),
   (resolve_division_prefix_rules "4.2").2.2.1 (by decide) (by decide) (by decide),
   (resolve_division_prefix_rules "9.9").2.2.2 (by decide) (by decide) (by decide)⟩

/-- Total volume contributed to bucket `n` at period `d` by the rows. -/
def division_contrib (rows : List DivRow) (d : String) (n : String) : ℚ :=
  ((rows.filter (fun r => r.date = d ∧ get_division_name r.type_code = some n)).map
    DivRow.volume).sum

theorem bucket_add_sel_eq (sel : Buckets → ℚ) (n : String)
    (hsel : ∀ b v, sel (bucket_add b (some n) v) = sel b + v)
    (b : Buckets) (o : Option String) (v : ℚ) (h : o = some n) :
    sel (bucket_add b o v) = sel b + v := by
  subst h
  exact hsel b v

theorem bucket_add_vehicle (b : Buckets) (v : ℚ) :
    bucket_add b (some "vehicle_parts_motorcycle") v =
      Buckets.mk (b.vehicle_parts_motorcycle + v) b.wholesale_trade b.retail_trade := rfl

theorem bucket_add_wholesale (b : Buckets) (v : ℚ) :
    bucket_add b (some "wholesale_trade") v =
      Buckets.mk b.vehicle_parts_motorcycle (b.wholesale_trade + v) b.retail_trade := rfl

theorem bucket_add_retail (b : Buckets) (v : ℚ) :
    bucket_add b (some "retail_trade") v =
      Buckets.mk b.vehicle_parts_motorcycle b.wholesale_trade (b.retail_trade + v) := rfl

theorem bucket_add_vehicle_ne (b : Buckets) (o : Option String) (v : ℚ)
    (h : o ≠ some "vehicle_parts_motorcycle") :
    (bucket_add b o v).vehicle_parts_motorcycle = b.vehicle_parts_motorcycle := by
  unfold bucket_add
  split <;> simp_all

theorem bucket_add_wholesale_ne (b : Buckets) (o : Option String) (v : ℚ)
    (h : o ≠ some "wholesale_trade") :
    (bucket_add b o v).wholesale_trade = b.wholesale_trade := by
  unfold bucket_add
  split <;> simp_all

theorem bucket_add_retail_ne (b : Buckets) (o : Option String) (v : ℚ)
    (h : o ≠ some "retail_trade") :
    (bucket_add b o v).retail_trade = b.retail_trade := by
  unfold bucket_add
  split <;> simp_all

theorem mem_dkeys_div_fold (rows : List DivRow) (init : List (String × Buckets)) (d : String) :
    d ∈ dkeys (rows.foldl (fun acc r =>
        dset acc r.date
          (bucket_add ((dget acc r.date).getD zero_buckets) (get_division_name r.type_code)
            r.volume)) init) ↔
      d ∈ dkeys init ∨ d ∈ rows.map DivRow.date := by
  induction rows generalizing init with
  | nil => simp
  | cons r rows ih =>
    rw [List.foldl_cons, ih, mem_dkeys_dset]
    simp only [List.map_cons, List.mem_cons]
    tauto

theorem dget_div_fold_sel (sel : Buckets → ℚ) (n : String)
    (hadd : ∀ b v, sel (bucket_add b (some n) v) = sel b + v)
    (hne : ∀ b o v, o ≠ some n → sel (bucket_add b o v) = sel b)
    (rows : List DivRow) (init : List (String × Buckets)) (d : String) :
    (dget (rows.foldl (fun acc r =>
        dset acc r.date
          (bucket_add ((dget acc r.date).getD zero_buckets) (get_division_name r.type_code)
            r.volume)) init) d).map sel =
      if d ∈ rows.map DivRow.date
      then some (sel ((dget init d).getD zero_buckets) + division_contrib rows d n)
      else (dget init d).map sel := by
  induction rows generalizing init with
  | nil => simp [division_contrib]
  | cons r rows ih =>
    rw [List.foldl_cons, ih]
    by_cases hd : r.date = d
    · subst hd
      rw [dget_dset_self]
      simp only [Option.getD_some, Option.map_some, List.map_cons, List.mem_cons, true_or,
        if_true]
      by_cases hres : get_division_name r.type_code = some n
      · have hc : division_contrib (r :: rows) r.date n =
            r.volume + division_contrib rows r.date n := by
          unfold division_contrib
          rw [List.filter_cons_of_pos (by simp [hres])]
          simp
        rw [hres, hadd, hc]
        by_cases hmem : r.date ∈ rows.map DivRow.date
        · simp only [hmem, if_true]
          rw [add_assoc]
        · have hc2 : division_contrib rows r.date n = 0 := by
            unfold division_contrib
            have hnil : rows.filter
                (fun r2 => r2.date = r.date ∧ get_division_name r2.type_code = some n) = [] := by
              rw [List.filter_eq_nil_iff]
              intro a ha
              simp only [decide_eq_true_eq, not_and]
              intro had
              exact absurd (had ▸ List.mem_map_of_mem DivRow.date ha) hmem
            rw [hnil]
            rfl
          simp only [hmem, if_false]
          simp [hadd, hc2]
      · have hc : division_contrib (r :: rows) r.date n = division_contrib rows r.date n := by
          unfold division_contrib
          rw [List.filter_cons_of_neg (by simp [hres])]
        rw [hne _ _ _ hres, hc]
        by_cases hmem : r.date ∈ rows.map DivRow.date
        · simp only [hmem, if_true]
        · have hc2 : division_contrib rows r.date n = 0 := by
            unfold division_contrib
            have hnil : rows.filter
                (fun r2 => r2.date = r.date ∧ get_division_name r2.type_code = some n) = [] := by
              rw [List.filter_eq_nil_iff]
              intro a ha
              simp only [decide_eq_true_eq, not_and]
              intro had
              exact absurd (had ▸ List.mem_map_of_mem DivRow.date ha) hmem
            rw [hnil]
            rfl
          simp only [hmem, if_false]
          simp [hne _ _ _ hres, hc2]
    · rw [dget_dset_ne _ _ _ _ hd]
      have hc : division_contrib (r :: rows) d n = division_contrib rows d n := by
        unfold division_contrib
        rw [List.filter_cons_of_neg (by simp [hd])]
      have hdr : (d = r.date) = False := by
        simp only [eq_iff_iff, iff_false]
        exact fun h => hd h.symm
      simp only [List.map_cons, List.mem_cons, hdr, false_or, hc]

theorem contrib_eq_zero_of_no_match (rows : List DivRow) (d n : String)
    (hall : ∀ r ∈ rows, r.date = d → get_division_name r.type_code ≠ some n) :
    division_contrib rows d n = 0 := by
  unfold division_contrib
  have hnil : rows.filter (fun r => r.date = d ∧ get_division_name r.type_code = some n)
      = [] := by
    rw [List.filter_eq_nil_iff]
    intro a ha
    simp only [decide_eq_true_eq, not_and]
    intro had
    exact hall a ha had
  rw [hnil]
  rfl

theorem dget_commerce_division_eq_contribs (rows : List DivRow) (d : String) (b : Buckets)
    (hb : dget (commerce_division_data_by_date rows) d = some b)
    (h : d ∈ rows.map DivRow.date) :
    b.vehicle_parts_motorcycle = division_contrib rows d "vehicle_parts_motorcycle" ∧
    b.wholesale_trade = division_contrib rows d "wholesale_trade" ∧
    b.retail_trade = division_contrib rows d "retail_trade" := by
  have hv := dget_div_fold_sel Buckets.vehicle_parts_motorcycle "vehicle_parts_motorcycle"
    (fun b v => rfl) bucket_add_vehicle_ne rows [] d
  have hw := dget_div_fold_sel Buckets.wholesale_trade "wholesale_trade"
    (fun b v => rfl) bucket_add_wholesale_ne rows [] d
  have hr := dget_div_fold_sel Buckets.retail_trade "retail_trade"
    (fun b v => rfl) bucket_add_retail_ne rows [] d
  have hfold : (rows.foldl (fun acc r =>
      dset acc r.date
        (bucket_add ((dget acc r.date).getD zero_buckets) (get_division_name r.type_code)
          r.volume)) []) = commerce_division_data_by_date rows := rfl
  rw [hfold, hb] at hv hw hr
  simp only [h, if_true, Option.map_some, dget, Option.getD_none] at hv hw hr
  refine ⟨?_, ?_, ?_⟩
  · simpa [zero_buckets] using hv
  · simpa [zero_buckets] using hw
  · simpa [zero_buckets] using hr

/-- C4: for every period appearing in the input rows, the commerce
division view emits a document for that period whose `data` list carries
all three fixed bucket names; each bucket value is the summed contribution
of the rows resolving to it, hence `0` whenever no input row contributes
to that bucket. -/
theorem commerce_division_dense_buckets (rows : List DivRow) (d : String)
    (h : d ∈ rows.map DivRow.date) :
    ∃ b : Buckets,
      dget (commerce_division_data_by_date rows) d = some b ∧
      (d, division_doc d b) ∈ aggregate_commerce_division rows ∧
      (division_doc d b).map DivItem.name =
        ["vehicle_parts_motorcycle", "wholesale_trade", "retail_trade"] ∧
      b.vehicle_parts_motorcycle = division_contrib rows d "vehicle_parts_motorcycle" ∧
      b.wholesale_trade = division_contrib rows d "wholesale_trade" ∧
      b.retail_trade = division_contrib rows d "retail_trade" ∧
      ((∀ r ∈ rows, r.date = d →
          get_division_name r.type_code ≠ some "vehicle_parts_motorcycle") →
        b.vehicle_parts_motorcycle = 0) ∧
      ((∀ r ∈ rows, r.date = d → get_division_name r.type_code ≠ some "wholesale_trade") →
        b.wholesale_trade = 0) ∧
      ((∀ r ∈ rows, r.date = d → get_division_name r.type_code ≠ some "retail_trade") →
        b.retail_trade = 0) := by
  have hmem : d ∈ dkeys (commerce_division_data_by_date rows) :=
    (mem_dkeys_div_fold rows [] d).mpr (Or.inr h)
  obtain ⟨b, hb⟩ := Option.isSome_iff_exists.mp
    ((dget_isSome_iff_mem_dkeys (commerce_division_data_by_date rows) d).mpr hmem)
  obtain ⟨hv, hw, hr⟩ := dget_commerce_division_eq_contribs rows d b hb h
  refine ⟨b, hb, ?_, rfl, hv, hw, hr, ?_, ?_, ?_⟩
  · have hmem2 := dget_some_mem _ _ _ hb
    exact List.mem_map_of_mem (fun p => (p.1, division_doc p.1 p.2)) hmem2
  · intro hall
    rw [hv]
    exact contrib_eq_zero_of_no_match rows d _ hall
  · intro hall
    rw [hw]
    exact contrib_eq_zero_of_no_match rows d _ hall
  · intro hall
    rw [hr]
    exact contrib_eq_zero_of_no_match rows d _ hall

/-- Witness for C4: input with only a `2.x` code for period `2020`; the
emitted document still carries `wholesale_trade` and `retail_trade`, both
`0`. -/
theorem commerce_division_dense_buckets_witness :
    ("2020" ∈ [DivRow.mk "2.1" "2020" 100].map DivRow.date) ∧
    ∃ b : Buckets,
      dget (commerce_division_data_by_date [DivRow.mk "2.1" "2020" 100]) "2020" = some b ∧
      ("2020", division_doc "2020" b) ∈
        aggregate_commerce_division [DivRow.mk "2.1" "2020" 100] ∧
      (division_doc "2020" b).map DivItem.name =
        ["vehicle_parts_motorcycle", "wholesale_trade", "retail_trade"] ∧
      b.vehicle_parts_motorcycle =
        division_contrib [DivRow.mk "2.1" "2020" 100] "2020" "vehicle_parts_motorcycle" ∧
      b.wholesale_trade =
        division_contrib [DivRow.mk "2.1" "2020" 100] "2020" "wholesale_trade" ∧
      b.retail_trade =
        division_contrib [DivRow.mk "2.1" "2020" 100] "2020" "retail_trade" ∧
      ((∀ r ∈ [DivRow.mk "2.1" "2020" 100], r.date = "2020" →
          get_division_name r.type_code ≠ some "vehicle_parts_motorcycle") →
        b.vehicle_parts_motorcycle = 0) ∧
      ((∀ r ∈ [DivRow.mk "2.1" "2020" 100], r.date = "2020" →
          get_division_name r.type_code ≠ some "wholesale_trade") →
        b.wholesale_trade = 0) ∧
      ((∀ r ∈ [DivRow.mk "2.1" "2020" 100], r.date = "2020" →
          get_division_name r.type_code ≠ some "retail_trade") →
        b.retail_trade = 0) :=
  ⟨by decide, commerce_division_dense_buckets [DivRow.mk "2.1" "2020" 100] "2020" (by decide)⟩

/-- C10: a period whose rows all carry unmatched classification codes is
still initialized and emitted as a document whose three fixed buckets are
all zero, rather than the period being absent. -/
theorem commerce_division_unmatched_period_emitted (rows : List DivRow) (d : String)
    (h : d ∈ rows.map DivRow.date)
    (hall : ∀ r ∈ rows, r.date = d → get_division_name r.type_code = none) :
    (d, division_doc d zero_buckets) ∈ aggregate_commerce_division rows ∧
    division_doc d zero_buckets =
      [DivItem.mk d "vehicle_parts_motorcycle" 0, DivItem.mk d "wholesale_trade" 0,
       DivItem.mk d "retail_trade" 0] := by
  have hmem : d ∈ dkeys (commerce_division_data_by_date rows) :=
    (mem_dkeys_div_fold rows [] d).mpr (Or.inr h)
  obtain ⟨b, hb⟩ := Option.isSome_iff_exists.mp
    ((dget_isSome_iff_mem_dkeys (commerce_division_data_by_date rows) d).mpr hmem)
  obtain ⟨hv, hw, hr⟩ := dget_commerce_division_eq_contribs rows d b hb h
  have hzero : ∀ n, division_contrib rows d n = 0 := fun n =>
    contrib_eq_zero_of_no_match rows d n
      (fun r hrmem hrd hcontra => by rw [hall r hrmem hrd] at hcontra; cases hcontra)
  have hbz : b = zero_buckets := by
    obtain ⟨bv, bw, br⟩ := b
    simp only [hzero] at hv hw hr
    simp only [zero_buckets]
    subst hv
    subst hw
    subst hr
    rfl
  subst hbz
  refine ⟨?_, rfl⟩
  have hmem2 := dget_some_mem _ _ _ hb
  exact List.mem_map_of_mem (fun p => (p.1, division_doc p.1 p.2)) hmem2

/-- Witness for C10 at a single row with unmatched code `9.9`. -/
theorem commerce_division_unmatched_period_emitted_witness :
    ("2020" ∈ [DivRow.mk "9.9" "2020" 5].map DivRow.date) ∧
    (("2020", division_doc "2020" zero_buckets) ∈
        aggregate_commerce_division [DivRow.mk "9.9" "2020" 5] ∧
      division_doc "2020" zero_buckets =
        [DivItem.mk "2020" "vehicle_parts_motorcycle" 0,
         DivItem.mk "2020" "wholesale_trade" 0,
         DivItem.mk "2020" "retail_trade" 0]) :=
  ⟨by decide,
   commerce_division_unmatched_period_emitted [DivRow.mk "9.9" "2020" 5] "2020"
     (by decide) (by decide)⟩

theorem pyLower_digit (c : Char) (h : isDigitChar c = true) : pyLower c = c := by
  unfold pyLower
  split <;> first | rfl | (exfalso; exact absurd h (by decide))

theorem digit_not_pyspace (c : Char) (h : isDigitChar c = true) : isPySpace c = false := by
  unfold isPySpace
  simp only [Bool.or_eq_false_iff, decide_eq_false_iff_not]
  refine ⟨⟨⟨⟨⟨?_, ?_⟩, ?_⟩, ?_⟩, ?_⟩, ?_⟩ <;>
    (intro hc; subst hc; exact absurd h (by decide))

theorem takeWhile_append_all {α : Type} (p : α → Bool) (l1 l2 : List α)
    (h : ∀ c ∈ l1, p c = true) :
    (l1 ++ l2).takeWhile p = l1 ++ l2.takeWhile p := by
  induction l1 with
  | nil => simp
  | cons a t ih =>
    have ha : p a = true := h a (List.mem_cons_self a t)
    simp only [List.cons_append, List.takeWhile_cons, ha, if_true]
    rw [ih (fun c hc => h c (List.mem_cons_of_mem a hc))]

theorem dropWhile_append_all {α : Type} (p : α → Bool) (l1 l2 : List α)
    (h : ∀ c ∈ l1, p c = true) :
    (l1 ++ l2).dropWhile p = l2.dropWhile p := by
  induction l1 with
  | nil => simp
  | cons a t ih =>
    have ha : p a = true := h a (List.mem_cons_self a t)
    simp only [List.cons_append, List.dropWhile_cons, ha, if_true]
    exact ih (fun c hc => h c (List.mem_cons_of_mem a hc))

theorem month_name_chars (k mm : String) (h : dget month_map k = some mm) :
    (∀ c ∈ k.data, isMonthChar c = true) ∧ k.data ≠ [] := by
  have hm := dget_some_mem _ _ _ h
  have hk : k ∈ month_map.map Prod.fst := List.mem_map_of_mem Prod.fst hm
  simp only [month_map, List.map_cons, List.map_nil] at hk
  fin_cases hk <;> exact ⟨by decide, by decide⟩

theorem list_length_four {α : Type} (l : List α) (h : l.length = 4) :
    ∃ a b c d, l = [a, b, c, d] := by
  cases l with
  | nil => simp at h
  | cons a l1 =>
    cases l1 with
    | nil => simp at h
    | cons b l2 =>
      cases l2 with
      | nil => simp at h
      | cons c l3 =>
        cases l3 with
        | nil => simp at h
        | cons d l4 =>
          cases l4 with
          | nil => exact ⟨a, b, c, d, rfl⟩
          | cons e l5 => simp [List.length_cons] at h

theorem regex_month_year_exact (name : List Char) (d1 d2 d3 d4 : Char) (tail : List Char)
    (hname : ∀ c ∈ name, isMonthChar c = true) (hnil : name ≠ [])
    (h1 : isDigitChar d1 = true) (h2 : isDigitChar d2 = true)
    (h3 : isDigitChar d3 = true) (h4 : isDigitChar d4 = true) :
    regex_month_year (name ++ ' ' :: d1 :: d2 :: d3 :: d4 :: tail) =
      some (name, [d1, d2, d3, d4]) := by
  have hspace : isMonthChar ' ' = false := by decide
  have hspace2 : isPySpace ' ' = true := by decide
  have ht : (name ++ ' ' :: d1 :: d2 :: d3 :: d4 :: tail).takeWhile isMonthChar = name := by
    rw [takeWhile_append_all isMonthChar name _ hname]
    simp [List.takeWhile_cons, hspace]
  have hd : (name ++ ' ' :: d1 :: d2 :: d3 :: d4 :: tail).dropWhile isMonthChar =
      ' ' :: d1 :: d2 :: d3 :: d4 :: tail := by
    rw [dropWhile_append_all isMonthChar name _ hname]
    simp [List.dropWhile_cons, hspace]
  have hne : name.isEmpty = false := by
    cases hn : name with
    | nil => exact absurd hn hnil
    | cons a t => rfl
  have hsp : (' ' :: d1 :: d2 :: d3 :: d4 :: tail).takeWhile isPySpace = [' '] := by
    simp [List.takeWhile_cons, hspace2, digit_not_pyspace d1 h1]
  have hrest2 : (' ' :: d1 :: d2 :: d3 :: d4 :: tail).dropWhile isPySpace =
      d1 :: d2 :: d3 :: d4 :: tail := by
    simp [List.dropWhile_cons, hspace2, digit_not_pyspace d1 h1]
  simp only [regex_month_year, ht, hd, hne, hsp, hrest2, Bool.false_eq_true, if_false,
    List.isEmpty_cons, h1, h2, h3, h4, Bool.and_self, if_true]

theorem parse_month_year_pos (w y name mm : String)
    (hw : w.data.map pyLower = name.data)
    (hlk : dget month_map name = some mm)
    (hy4 : y.data.length = 4)
    (hyd : ∀ c ∈ y.data, isDigitChar c = true) :
    parse_month_year (w ++ " " ++ y) = some (y ++ "-" ++ mm) := by
  obtain ⟨hname, hnil⟩ := month_name_chars name mm hlk
  obtain ⟨d1, d2, d3, d4, hy⟩ := list_length_four y.data hy4
  have hylow : y.data.map pyLower = y.data := by
    have h := List.map_congr_left (fun c hc => pyLower_digit c (hyd c hc))
    simpa using h
  have hlow : (w ++ " " ++ y).data.map pyLower =
      name.data ++ ' ' :: d1 :: d2 :: d3 :: d4 :: [] := by
    rw [String.data_append, String.data_append, List.map_append, List.map_append, hw, hylow, hy]
    rw [show List.map pyLower " ".data = [' '] from rfl, List.append_assoc]
    rfl
  have hreg := regex_month_year_exact name.data d1 d2 d3 d4 []
    hname hnil
    (hyd d1 (by rw [hy]; simp)) (hyd d2 (by rw [hy]; simp))
    (hyd d3 (by rw [hy]; simp)) (hyd d4 (by rw [hy]; simp))
  have heta : String.mk name.data = name := rfl
  have hymk : String.mk [d1, d2, d3, d4] = y := by rw [← hy]
  unfold parse_month_year
  simp only [hlow, hreg, heta, hlk, hymk]

theorem parse_month_year_some_decomp (s out : String) (h : parse_month_year s = some out) :
    ∃ (name mm : String) (sp y rest : List Char),
      (name, mm) ∈ month_map ∧
      name.data ≠ [] ∧
      sp ≠ [] ∧ (∀ c ∈ sp, isPySpace c = true) ∧
      y.length = 4 ∧ (∀ c ∈ y, isDigitChar c = true) ∧
      s.data.map pyLower = name.data ++ sp ++ y ++ rest ∧
      out = String.mk y ++ "-" ++ mm := by
  unfold parse_month_year at h
  cases hr : regex_month_year (s.data.map pyLower) with
  | none => rw [hr] at h; simp at h
  | some p =>
    obtain ⟨m, yy⟩ := p
    rw [hr] at h
    have h2 : (match dget month_map (String.mk m) with
      | none => none
      | some mm => some (String.mk yy ++ "-" ++ mm)) = some out := h
    clear h
    cases hlk : dget month_map (String.mk m) with
    | none => rw [hlk] at h2; simp at h2
    | some mm =>
      rw [hlk] at h2
      simp only [Option.some.injEq] at h2
      simp only [regex_month_year] at hr
      split at hr
      · exact Option.noConfusion hr
      · split at hr
        · exact Option.noConfusion hr
        · rename_i hA hB
          cases hX : ((s.data.map pyLower).dropWhile isMonthChar).dropWhile isPySpace with
          | nil => rw [hX] at hr; simp at hr
          | cons d1 t1 =>
            cases t1 with
            | nil => rw [hX] at hr; simp at hr
            | cons d2 t2 =>
              cases t2 with
              | nil => rw [hX] at hr; simp at hr
              | cons d3 t3 =>
                cases t3 with
                | nil => rw [hX] at hr; simp at hr
                | cons d4 tail =>
                  rw [hX] at hr
                  have hr2 : (if (isDigitChar d1 && isDigitChar d2 && isDigitChar d3 &&
                      isDigitChar d4) = true then
                      some ((s.data.map pyLower).takeWhile isMonthChar, [d1, d2, d3, d4])
                    else none) = some (m, yy) := hr
                  clear hr
                  cases hdig : (isDigitChar d1 && isDigitChar d2 && isDigitChar d3 &&
                      isDigitChar d4) with
                  | false => rw [hdig] at hr2; simp at hr2
                  | true =>
                    rw [hdig] at hr2
                    simp only [if_true, Option.some.injEq, Prod.mk.injEq] at hr2
                    obtain ⟨hm, hyy⟩ := hr2
                    obtain ⟨hd1, hd2, hd3, hd4⟩ : isDigitChar d1 = true ∧
                        isDigitChar d2 = true ∧ isDigitChar d3 = true ∧
                        isDigitChar d4 = true := by
                      simp only [Bool.and_eq_true] at hdig
                      tauto
                    refine ⟨String.mk m, mm,
                      ((s.data.map pyLower).dropWhile isMonthChar).takeWhile isPySpace,
                      yy, tail, dget_some_mem _ _ _ hlk, ?_, ?_, ?_, ?_, ?_, ?_, h2.symm⟩
                    · show m ≠ []
                      intro hmn
                      rw [hm, hmn] at hA
                      simp at hA
                    · intro hspn
                      rw [hspn] at hB
                      simp at hB
                    · intro c hc
                      exact List.mem_takeWhile_imp hc
                    · rw [← hyy]
                      rfl
                    · intro c hc
                      rw [← hyy] at hc
                      simp only [List.mem_cons, List.not_mem_nil, or_false] at hc
                      rcases hc with rfl | rfl | rfl | rfl
                      · exact hd1
                      · exact hd2
                      · exact hd3
                      · exact hd4
                    · show s.data.map pyLower = m ++ _ ++ yy ++ tail
                      rw [← hm, ← hyy]
                      have e1 : s.data.map pyLower =
                          (s.data.map pyLower).takeWhile isMonthChar ++
                            (s.data.map pyLower).dropWhile isMonthChar :=
                        (List.takeWhile_append_dropWhile isMonthChar _).symm
                      have e2 : (s.data.map pyLower).dropWhile isMonthChar =
                          ((s.data.map pyLower).dropWhile isMonthChar).takeWhile isPySpace ++
                            ((s.data.map pyLower).dropWhile isMonthChar).dropWhile isPySpace :=
                        (List.takeWhile_append_dropWhile isPySpace _).symm
                      conv_lhs => rw [e1, e2]
                      rw [hX]
                      simp [List.append_assoc]

/-- The input shape the specification describes for the month-year parser:
exactly one of the twelve month names (in any letter case), a single
space, and exactly a 4-digit year, with nothing after it. -/
def exact_month_year_form (s : String) : Prop :=
  ∃ w y : String, s = w ++ " " ++ y ∧
    (dget month_map (String.mk (w.data.map pyLower))).isSome ∧
    y.data.length = 4 ∧ ∀ c ∈ y.data, isDigitChar c = true

/-- C3 (counterexample): `"janeiro 20209"` is not of the form
`"<month-name> <4-digit-year>"`, yet the parser does not skip it: the
regex is only anchored at the start, so the observation is parsed as
`2020-01`. -/
theorem parse_month_year_prefix_counterexample :
    parse_month_year "janeiro 20209" = some "2020-01" ∧
    ¬ exact_month_year_form "janeiro 20209" := by
  constructor
  · rfl
  · rintro ⟨w, y, heq, hsome, hlen, hdig⟩
    have hdata : ("janeiro 20209").data = w.data ++ (' ' :: y.data) := by
      rw [heq, String.data_append, String.data_append]
      rw [List.append_assoc]
      rfl
    have h13 : ("janeiro 20209").data.length = 13 := by decide
    have hw8 : w.data.length = 8 := by
      rw [hdata] at h13
      simp only [List.length_append, List.length_cons, hlen] at h13
      omega
    have hdrop : List.drop 8 (("janeiro 20209").data) = ' ' :: y.data := by
      rw [hdata, ← hw8]
      exact List.drop_left w.data _
    have : (['2', '0', '2', '0', '9'] : List Char) = ' ' :: y.data := by
      rw [← hdrop]
      decide
    injection this with h1 _
    exact absurd h1 (by decide)

/-- C3 (amended): for every input consisting of a month name (in any
letter case, i.e. any string lowering to one of the twelve table keys), a
space and a 4-digit year, the parser returns the correct `YYYY-MM` key;
and conversely every input the parser does not skip decomposes, after
lowercasing, into a month name from the table, whitespace, a 4-digit year
and an ignored tail, the result being the table-correct `YYYY-MM` key.
Inputs with no such prefix (in particular unknown month names) are
skipped. -/
theorem parse_month_year_amended :
    (∀ w y mm : String,
      dget month_map (String.mk (w.data.map pyLower)) = some mm →
      y.data.length = 4 → (∀ c ∈ y.data, isDigitChar c = true) →
      parse_month_year (w ++ " " ++ y) = some (y ++ "-" ++ mm)) ∧
    (∀ s out : String, parse_month_year s = some out →
      ∃ (name mm : String) (sp y rest : List Char),
        (name, mm) ∈ month_map ∧
        name.data ≠ [] ∧
        sp ≠ [] ∧ (∀ c ∈ sp, isPySpace c = true) ∧
        y.length = 4 ∧ (∀ c ∈ y, isDigitChar c = true) ∧
        s.data.map pyLower = name.data ++ sp ++ y ++ rest ∧
        out = String.mk y ++ "-" ++ mm) := by
  constructor
  · intro w y mm hlk hy4 hyd
    exact parse_month_year_pos w y (String.mk (w.data.map pyLower)) mm rfl hlk hy4 hyd
  · exact parse_month_year_some_decomp

/-- Witness for the amended C3 theorem: the mixed-case `"Março 2021"`
parses to `2021-03`, and the parsed `"dezembro 1999"` decomposes as the
theorem states. -/
theorem parse_month_year_amended_witness :
    parse_month_year ("Março" ++ " " ++ "2021") = some ("2021" ++ "-" ++ "03") ∧
    (∃ (name mm : String) (sp y rest : List Char),
      (name, mm) ∈ month_map ∧
      name.data ≠ [] ∧
      sp ≠ [] ∧ (∀ c ∈ sp, isPySpace c = true) ∧
      y.length = 4 ∧ (∀ c ∈ y, isDigitChar c = true) ∧
      ("dezembro 1999").data.map pyLower = name.data ++ sp ++ y ++ rest ∧
      "1999-12" = String.mk y ++ "-" ++ mm) :=
  ⟨parse_month_year_amended.1 "Março" "2021" "03" (by decide) (by decide) (by decide),
   parse_month_year_amended.2 "dezembro 1999" "1999-12" (by decide)⟩

theorem dget_eq_of_mem_nodup {K V : Type} [DecidableEq K] (m : List (K × V)) (k : K) (v : V)
    (hm : (k, v) ∈ m) (hnd : (dkeys m).Nodup) : dget m k = some v := by
  induction m with
  | nil => cases hm
  | cons p m ih =>
    obtain ⟨k1, v1⟩ := p
    rcases List.mem_cons.mp hm with heq | hmem
    · obtain ⟨rfl, rfl⟩ := Prod.mk.injEq .. ▸ heq
      simp [dget]
    · have hk : k ∈ dkeys m := by
        simpa [dkeys] using List.mem_map_of_mem Prod.fst hmem
      have hne : k1 ≠ k := by
        intro hk1
        subst hk1
        exact (List.nodup_cons.mp hnd).1 hk
      simp only [dget, if_neg hne]
      exact ih hmem (List.nodup_cons.mp hnd).2

theorem series_by_cls_foldl (rows : List SeriesRow) (init : List (String × List Entry)) :
    rows.foldl (fun acc r =>
        match month_entry r with
        | none => acc
        | some (c, e) => dappend acc c e) init =
      group_append Prod.fst Prod.snd init (rows.filterMap month_entry) := by
  induction rows generalizing init with
  | nil => rfl
  | cons r rows ih =>
    rw [List.foldl_cons]
    cases hme : month_entry r with
    | none =>
      rw [List.filterMap_cons_none hme]
      simpa [hme] using ih init
    | some p =>
      obtain ⟨c, e⟩ := p
      rw [List.filterMap_cons_some hme]
      have hstep : group_append Prod.fst Prod.snd init ((c, e) :: rows.filterMap month_entry) =
          group_append Prod.fst Prod.snd (dappend init c e) (rows.filterMap month_entry) := rfl
      rw [hstep, ← ih (dappend init c e)]

theorem series_by_cls_eq_group (rows : List SeriesRow) :
    series_by_cls rows = group_append Prod.fst Prod.snd [] (rows.filterMap month_entry) :=
  series_by_cls_foldl rows []

theorem dget_series_by_cls (rows : List SeriesRow) (c : String) :
    dget (series_by_cls rows) c =
      if c ∈ (rows.filterMap month_entry).map Prod.fst
      then some (((rows.filterMap month_entry).filter (fun p => p.1 = c)).map Prod.snd)
      else none := by
  rw [series_by_cls_eq_group, dget_group_append]
  simp [dget]

theorem nodup_dkeys_series_by_cls (rows : List SeriesRow) :
    (dkeys (series_by_cls rows)).Nodup := by
  rw [series_by_cls_eq_group]
  exact nodup_dkeys_group_append _ _ _ _ (by simp [dkeys])

theorem pyRound2_zero : pyRound2 0 = 0 := by
  norm_num [pyRound2, round_half_even]

theorem mem_cls_of_mem_dkeys_series (rows : List SeriesRow) (c : String)
    (h : c ∈ dkeys (series_by_cls rows)) : c ∈ rows.map SeriesRow.cls := by
  rw [series_by_cls_eq_group] at h
  rcases (mem_dkeys_group_append _ _ _ _ _).mp h with h2 | h2
  · simp [dkeys] at h2
  · obtain ⟨p, hp, hp1⟩ := List.mem_map.mp h2
    obtain ⟨r, hr, hrp⟩ := List.mem_filterMap.mp hp
    obtain ⟨d, _, hfd⟩ := Option.map_eq_some'.mp hrp
    have : p.1 = r.cls := by rw [← hfd]
    rw [← hp1, this]
    exact List.mem_map_of_mem SeriesRow.cls hr

theorem series_entries_zero (rows : List SeriesRow) (c : String) (recs : List Entry)
    (hzero : ∀ r ∈ rows, r.cls = c → r.value = 0)
    (hdg : dget (series_by_cls rows) c = some recs) :
    ∀ e ∈ recs, e.value = 0 := by
  rw [dget_series_by_cls] at hdg
  split at hdg
  · obtain rfl : ((rows.filterMap month_entry).filter (fun p => p.1 = c)).map Prod.snd
        = recs := by
      injection hdg
    intro e he
    obtain ⟨p, hpfil, hpe⟩ := List.mem_map.mp he
    have hpmem := List.mem_of_mem_filter hpfil
    have hp1 : p.1 = c := by
      have := List.of_mem_filter hpfil
      simpa using this
    obtain ⟨r, hr, hrp⟩ := List.mem_filterMap.mp hpmem
    obtain ⟨d, _, hfd⟩ := Option.map_eq_some'.mp hrp
    have hcls : r.cls = c := by rw [← hp1, ← hfd]
    have hval : r.value = 0 := hzero r hr hcls
    have he2 : e = Entry.mk d (pyRound2 r.value) := by
      rw [← hpe, ← hfd]
    rw [he2, hval, pyRound2_zero]
  · exact absurd hdg (by simp)

theorem service_monthly_absent (rows : List SeriesRow) (c : String)
    (hzero : ∀ r ∈ rows, r.cls = c → r.value = 0)
    (hinj : ∀ c2 ∈ dkeys (series_by_cls rows), slugify c2 = slugify c → c2 = c) :
    slugify c ∉ ((((series_by_cls rows).map (fun p => (p.1, sort_by_date p.2))).filter
      (fun p => is_series_nonzero p.2)).map (fun p => (slugify p.1, p.2))).map Prod.fst := by
  intro hmem
  rw [List.map_map] at hmem
  obtain ⟨p, hpfil, hps⟩ := List.mem_map.mp hmem
  have hpmem := List.mem_of_mem_filter hpfil
  have hnz : is_series_nonzero p.2 = true := by
    have := List.of_mem_filter hpfil
    simpa using this
  obtain ⟨q, hq, hpq⟩ := List.mem_map.mp hpmem
  have hp1 : p.1 = q.1 := by rw [← hpq]
  have hps2 : slugify p.1 = slugify c := hps
  have hq1 : q.1 = c := hinj q.1 (List.mem_map_of_mem Prod.fst hq) (by rw [← hp1, hps2])
  have hnd := nodup_dkeys_series_by_cls rows
  have hqe : (q.1, q.2) ∈ series_by_cls rows := hq
  have hdg : dget (series_by_cls rows) q.1 = some q.2 :=
    dget_eq_of_mem_nodup _ _ _ hqe hnd
  rw [hq1] at hdg
  have hall : ∀ e ∈ q.2, e.value = 0 := series_entries_zero rows c q.2 hzero hdg
  obtain ⟨e, he, hne⟩ : ∃ e ∈ p.2, e.value ≠ 0 := by
    unfold is_series_nonzero at hnz
    simpa using hnz
  have hp2 : p.2 = sort_by_date q.2 := by rw [← hpq]
  have he2 : e ∈ q.2 := by
    rw [hp2] at he
    exact (List.perm_insertionSort dateLe q.2).subset he
  exact hne (hall e he2)

/-- C5: a classification whose whole input series is zero-valued is
dropped by the service monthly views but kept by the industry views
(production and yearly revenue), given the same rows. -/
theorem zero_series_service_dropped_industry_kept (rows : List SeriesRow) (c : String)
    (hzero : ∀ r ∈ rows, r.cls = c → r.value = 0)
    (hmem : c ∈ dkeys (series_by_cls rows))
    (hinj : ∀ c2 ∈ dkeys (series_by_cls rows), slugify c2 = slugify c → c2 = c) :
    slugify c ∉ (aggregate_service_volume_monthly rows).map Prod.fst ∧
    slugify c ∉ (aggregate_service_revenue_monthly rows).map Prod.fst ∧
    slugify c ∈ (aggregate_industry_production rows).map Prod.fst ∧
    slugify c ∈ (aggregate_industry_revenue_yearly rows).map Prod.fst := by
  have habs := service_monthly_absent rows c hzero hinj
  refine ⟨habs, habs, ?_, ?_⟩
  · obtain ⟨q, hq, hq1⟩ := List.mem_map.mp hmem
    have : (slugify q.1, sort_by_date q.2) ∈ aggregate_industry_production rows :=
      List.mem_map_of_mem (fun p => (slugify p.1, sort_by_date p.2)) hq
    have h2 := List.mem_map_of_mem Prod.fst this
    simpa [hq1] using h2
  · have hcls : c ∈ rows.map SeriesRow.cls := mem_cls_of_mem_dkeys_series rows c hmem
    have hky : c ∈ dkeys (group_append (fun r => r.cls)
        (fun r => Entry.mk r.raw_date (pyRound2 r.value)) [] rows) :=
      (mem_dkeys_group_append _ _ _ _ _).mpr (Or.inr hcls)
    obtain ⟨q, hq, hq1⟩ := List.mem_map.mp hky
    have : (slugify q.1, q.2) ∈ aggregate_industry_revenue_yearly rows :=
      List.mem_map_of_mem (fun p => (slugify p.1, p.2)) hq
    have h2 := List.mem_map_of_mem Prod.fst this
    simpa [hq1] using h2

/-- Witness for C5 at one all-zero row for classification `abc`. -/
theorem zero_series_service_dropped_industry_kept_witness :
    (∀ r ∈ [SeriesRow.mk "abc" "janeiro 2020" 0], r.cls = "abc" → r.value = 0) ∧
    ("abc" ∈ dkeys (series_by_cls [SeriesRow.mk "abc" "janeiro 2020" 0])) ∧
    (slugify "abc" ∉
      (aggregate_service_volume_monthly [SeriesRow.mk "abc" "janeiro 2020" 0]).map Prod.fst ∧
    slugify "abc" ∉
      (aggregate_service_revenue_monthly [SeriesRow.mk "abc" "janeiro 2020" 0]).map Prod.fst ∧
    slugify "abc" ∈
      (aggregate_industry_production [SeriesRow.mk "abc" "janeiro 2020" 0]).map Prod.fst ∧
    slugify "abc" ∈
      (aggregate_industry_revenue_yearly [SeriesRow.mk "abc" "janeiro 2020" 0]).map Prod.fst) :=
  ⟨by decide, by decide,
   zero_series_service_dropped_industry_kept [SeriesRow.mk "abc" "janeiro 2020" 0] "abc"
     (by decide) (by decide) (by decide)⟩

theorem apply_upserts_apply {δ : Type} (ws : List (String × δ)) (st : String → Option δ)
    (k : String) :
    apply_upserts ws st k =
      match last_write ws k with
      | some d => some d
      | none => st k := by
  induction ws generalizing st with
  | nil => rfl
  | cons p tl ih =>
    obtain ⟨k1, d1⟩ := p
    have hstep : apply_upserts ((k1, d1) :: tl) st = apply_upserts tl (upsertF st k1 d1) := rfl
    rw [hstep, ih]
    cases hlw : last_write tl k with
    | some d2 => simp [last_write, hlw]
    | none =>
      simp only [last_write, hlw]
      by_cases hk : k1 = k
      · subst hk
        simp [upsertF]
      · simp [upsertF, hk, Ne.symm hk]

theorem apply_upserts_idem {δ : Type} (ws : List (String × δ)) (st : String → Option δ) :
    apply_upserts ws (apply_upserts ws st) = apply_upserts ws st := by
  funext k
  rw [apply_upserts_apply, apply_upserts_apply]
  cases hlw : last_write ws k with
  | some d => rfl
  | none => rfl

/-- C9: the aggregation is a pure function of the relational snapshot
(`run_aggregate inp` is deterministic by construction), and re-running it
against the same unchanged snapshot leaves the document store unchanged:
replaying every per-key upsert with the same computed payloads and every
collection replacement with the same document lists is a no-op. -/
theorem aggregation_idempotent (inp : AggInput) (st : MongoState) :
    run_aggregate inp (run_aggregate inp st) = run_aggregate inp st := by
  cases st
  simp only [run_aggregate, replace_collection]
  congr 1 <;> apply apply_upserts_idem

theorem service_view_keys (rows : List SeriesRow) :
    (aggregate_service_volume_monthly rows).map Prod.fst =
      (((series_by_cls rows).map (fun p => (p.1, sort_by_date p.2))).filter
        (fun p => is_series_nonzero p.2)).map (fun p => slugify p.1) := by
  unfold aggregate_service_volume_monthly
  simp [List.map_map, Function.comp]

theorem service_view_mem (rows : List SeriesRow) (p : String × List Entry)
    (hp : p ∈ series_by_cls rows) (hnz : is_series_nonzero (sort_by_date p.2) = true) :
    (slugify p.1, sort_by_date p.2) ∈ aggregate_service_volume_monthly rows := by
  unfold aggregate_service_volume_monthly
  have h1 : (p.1, sort_by_date p.2) ∈
      (series_by_cls rows).map (fun q => (q.1, sort_by_date q.2)) :=
    List.mem_map_of_mem (fun q => (q.1, sort_by_date q.2)) hp
  have h2 : (p.1, sort_by_date p.2) ∈
      ((series_by_cls rows).map (fun q => (q.1, sort_by_date q.2))).filter
        (fun q => is_series_nonzero q.2) :=
    List.mem_filter.mpr ⟨h1, hnz⟩
  exact List.mem_map_of_mem (fun q => (slugify q.1, q.2)) h2

theorem service_view_sorted (rows : List SeriesRow) :
    ∀ doc ∈ aggregate_service_volume_monthly rows, List.Pairwise dateLe doc.2 := by
  intro doc hdoc
  unfold aggregate_service_volume_monthly at hdoc
  obtain ⟨q, hqfil, hdq⟩ := List.mem_map.mp hdoc
  obtain ⟨p, hp, hpq⟩ := List.mem_map.mp (List.mem_of_mem_filter hqfil)
  have : doc.2 = sort_by_date p.2 := by
    rw [← hdq, ← hpq]
  rw [this]
  exact List.sorted_insertionSort dateLe p.2

theorem service_view_nodup (rows : List SeriesRow)
    (hinj : ∀ c1 ∈ dkeys (series_by_cls rows), ∀ c2 ∈ dkeys (series_by_cls rows),
      slugify c1 = slugify c2 → c1 = c2) :
    ((aggregate_service_volume_monthly rows).map Prod.fst).Nodup := by
  rw [service_view_keys]
  have hsub : (((series_by_cls rows).map (fun p => (p.1, sort_by_date p.2))).filter
      (fun p => is_series_nonzero p.2)).Sublist
      ((series_by_cls rows).map (fun p => (p.1, sort_by_date p.2))) :=
    List.filter_sublist _
  have hnd0 : (dkeys (series_by_cls rows)).Nodup := nodup_dkeys_series_by_cls rows
  have hkeysnd : (((series_by_cls rows).map (fun p => (p.1, sort_by_date p.2))).filter
      (fun p => is_series_nonzero p.2)).map Prod.fst
      |>.Nodup := by
    have h2 : (((series_by_cls rows).map (fun p => (p.1, sort_by_date p.2))).filter
        (fun p => is_series_nonzero p.2)).map Prod.fst
        |>.Sublist (((series_by_cls rows).map (fun p => (p.1, sort_by_date p.2))).map
          Prod.fst) := List.Sublist.map Prod.fst hsub
    have h3 : ((series_by_cls rows).map (fun p => (p.1, sort_by_date p.2))).map Prod.fst
        = dkeys (series_by_cls rows) := by
      simp [dkeys, List.map_map, Function.comp]
    exact (h3 ▸ h2).nodup hnd0
  have hmapfst : (((series_by_cls rows).map (fun p => (p.1, sort_by_date p.2))).filter
      (fun p => is_series_nonzero p.2)).map (fun p => slugify p.1)
      = ((((series_by_cls rows).map (fun p => (p.1, sort_by_date p.2))).filter
        (fun p => is_series_nonzero p.2)).map Prod.fst).map slugify := by
    simp [List.map_map, Function.comp]
  rw [hmapfst]
  refine List.Nodup.map_on ?_ hkeysnd
  intro x hx y hy hxy
  have hxmem : x ∈ dkeys (series_by_cls rows) := by
    obtain ⟨p, hpfil, hpx⟩ := List.mem_map.mp hx
    obtain ⟨q, hq, hqp⟩ := List.mem_map.mp (List.mem_of_mem_filter hpfil)
    have : q.1 = x := by rw [← hpx, ← hqp]
    rw [← this]
    exact List.mem_map_of_mem Prod.fst hq
  have hymem : y ∈ dkeys (series_by_cls rows) := by
    obtain ⟨p, hpfil, hpy⟩ := List.mem_map.mp hy
    obtain ⟨q, hq, hqp⟩ := List.mem_map.mp (List.mem_of_mem_filter hpfil)
    have : q.1 = y := by rw [← hpy, ← hqp]
    rw [← this]
    exact List.mem_map_of_mem Prod.fst hq
  exact hinj x hxmem y hymem hxy

theorem industry_revenue_doc_series (rows : List SeriesRow) (p : String × List Entry)
    (hp : p ∈ group_append (fun r => r.cls)
      (fun r => Entry.mk r.raw_date (pyRound2 r.value)) [] rows) :
    p.2 = (rows.filter (fun r => r.cls = p.1)).map
      (fun r => Entry.mk r.raw_date (pyRound2 r.value)) := by
  have hnd : (dkeys (group_append (fun r => r.cls)
      (fun r => Entry.mk r.raw_date (pyRound2 r.value)) [] rows)).Nodup :=
    nodup_dkeys_group_append _ _ _ _ (by simp [dkeys])
  have hdg := dget_eq_of_mem_nodup _ p.1 p.2 hp hnd
  rw [dget_group_append] at hdg
  by_cases hmem : p.1 ∈ rows.map (fun r => r.cls)
  · rw [if_pos hmem] at hdg
    simp only [dget, Option.getD_none, List.nil_append, Option.some.injEq] at hdg
    exact hdg.symm
  · rw [if_neg hmem] at hdg
    exact absurd hdg (by simp [dget])

/-- C7: for each of the four per-classification views, a run replaces the
whole collection: for any previous contents, the collection afterwards
holds exactly one document per surviving classification slug (when slugs
do not collide), carrying that classification's full time series sorted by
date, and no key outside the surviving slugs — in particular no stale key
— is present. -/
theorem per_classification_collections_replaced :
    (∀ (prev : List (String × List Entry)) (rows : List SeriesRow),
      (replace_collection prev (aggregate_industry_production rows)).map Prod.fst =
        (series_by_cls rows).map (fun p => slugify p.1) ∧
      (∀ k, k ∉ (series_by_cls rows).map (fun p => slugify p.1) →
        k ∉ (replace_collection prev (aggregate_industry_production rows)).map Prod.fst) ∧
      (∀ p ∈ series_by_cls rows,
        (slugify p.1, sort_by_date p.2) ∈
          replace_collection prev (aggregate_industry_production rows) ∧
        List.Pairwise dateLe (sort_by_date p.2)) ∧
      ((∀ c1 ∈ dkeys (series_by_cls rows), ∀ c2 ∈ dkeys (series_by_cls rows),
          slugify c1 = slugify c2 → c1 = c2) →
        ((replace_collection prev (aggregate_industry_production rows)).map Prod.fst).Nodup)) ∧
    (∀ (prev : List (String × List Entry)) (rows : List SeriesRow),
      (replace_collection prev (aggregate_industry_revenue_yearly rows)).map Prod.fst =
        (group_append (fun r => r.cls) (fun r => Entry.mk r.raw_date (pyRound2 r.value)) []
          rows).map (fun p => slugify p.1) ∧
      (List.Pairwise (fun a b => lexLe a.raw_date.data b.raw_date.data = true) rows →
        ∀ doc ∈ replace_collection prev (aggregate_industry_revenue_yearly rows),
          List.Pairwise dateLe doc.2) ∧
      ((∀ c1 ∈ rows.map SeriesRow.cls, ∀ c2 ∈ rows.map SeriesRow.cls,
          slugify c1 = slugify c2 → c1 = c2) →
        ((replace_collection prev
          (aggregate_industry_revenue_yearly rows)).map Prod.fst).Nodup)) ∧
    (∀ (prev : List (String × List Entry)) (rows : List SeriesRow),
      (replace_collection prev (aggregate_service_volume_monthly rows)).map Prod.fst =
        (((series_by_cls rows).map (fun p => (p.1, sort_by_date p.2))).filter
          (fun p => is_series_nonzero p.2)).map (fun p => slugify p.1) ∧
      (∀ p ∈ series_by_cls rows, is_series_nonzero (sort_by_date p.2) = true →
        (slugify p.1, sort_by_date p.2) ∈
          replace_collection prev (aggregate_service_volume_monthly rows)) ∧
      (∀ doc ∈ replace_collection prev (aggregate_service_volume_monthly rows),
        List.Pairwise dateLe doc.2) ∧
      ((∀ c1 ∈ dkeys (series_by_cls rows), ∀ c2 ∈ dkeys (series_by_cls rows),
          slugify c1 = slugify c2 → c1 = c2) →
        ((replace_collection prev
          (aggregate_service_volume_monthly rows)).map Prod.fst).Nodup)) ∧
    (∀ (prev : List (String × List Entry)) (rows : List SeriesRow),
      (replace_collection prev (aggregate_service_revenue_monthly rows)).map Prod.fst =
        (((series_by_cls rows).map (fun p => (p.1, sort_by_date p.2))).filter
          (fun p => is_series_nonzero p.2)).map (fun p => slugify p.1) ∧
      (∀ doc ∈ replace_collection prev (aggregate_service_revenue_monthly rows),
        List.Pairwise dateLe doc.2)) := by
  refine ⟨?_, ?_, ?_, ?_⟩
  · intro prev rows
    have hkeys : (replace_collection prev (aggregate_industry_production rows)).map Prod.fst =
        (series_by_cls rows).map (fun p => slugify p.1) := by
      show (aggregate_industry_production rows).map Prod.fst = _
      unfold aggregate_industry_production
      simp [List.map_map, Function.comp]
    refine ⟨hkeys, ?_, ?_, ?_⟩
    · intro k hk
      rw [hkeys]
      exact hk
    · intro p hp
      exact ⟨List.mem_map_of_mem (fun q => (slugify q.1, sort_by_date q.2)) hp,
        List.sorted_insertionSort dateLe p.2⟩
    · intro hinj
      rw [hkeys]
      have hmapfst : (series_by_cls rows).map (fun p => slugify p.1)
          = (dkeys (series_by_cls rows)).map slugify := by
        simp [dkeys, List.map_map, Function.comp]
      rw [hmapfst]
      exact List.Nodup.map_on hinj (nodup_dkeys_series_by_cls rows)
  · intro prev rows
    have hkeys : (replace_collection prev
        (aggregate_industry_revenue_yearly rows)).map Prod.fst =
        (group_append (fun r => r.cls) (fun r => Entry.mk r.raw_date (pyRound2 r.value)) []
          rows).map (fun p => slugify p.1) := by
      show (aggregate_industry_revenue_yearly rows).map Prod.fst = _
      unfold aggregate_industry_revenue_yearly
      simp [List.map_map, Function.comp]
    refine ⟨hkeys, ?_, ?_⟩
    · intro hsorted doc hdoc
      obtain ⟨p, hp, hdp⟩ := List.mem_map.mp hdoc
      have hp2 := industry_revenue_doc_series rows p hp
      have hdoc2 : doc.2 = p.2 := by rw [← hdp]
      rw [hdoc2, hp2]
      rw [List.pairwise_map]
      exact (hsorted.filter _).imp (fun hab => hab)
    · intro hinj
      rw [hkeys]
      have hmapfst : (group_append (fun r => r.cls)
          (fun r => Entry.mk r.raw_date (pyRound2 r.value)) [] rows).map
            (fun p => slugify p.1)
          = (dkeys (group_append (fun r => r.cls)
            (fun r => Entry.mk r.raw_date (pyRound2 r.value)) [] rows)).map slugify := by
        simp [dkeys, List.map_map, Function.comp]
      rw [hmapfst]
      refine List.Nodup.map_on ?_ (nodup_dkeys_group_append _ _ _ _ (by simp [dkeys]))
      intro x hx y hy hxy
      have hxm : x ∈ rows.map SeriesRow.cls := by
        rcases (mem_dkeys_group_append _ _ _ _ _).mp hx with h2 | h2
        · simp [dkeys] at h2
        · exact h2
      have hym : y ∈ rows.map SeriesRow.cls := by
        rcases (mem_dkeys_group_append _ _ _ _ _).mp hy with h2 | h2
        · simp [dkeys] at h2
        · exact h2
      exact hinj x hxm y hym hxy
  · intro prev rows
    refine ⟨service_view_keys rows, ?_, ?_, ?_⟩
    · intro p hp hnz
      exact service_view_mem rows p hp hnz
    · exact service_view_sorted rows
    · exact service_view_nodup rows
  · intro prev rows
    exact ⟨service_view_keys rows, service_view_sorted rows⟩

/-- Witness for C7 at a one-row input and a stale previous collection. -/
theorem per_classification_collections_replaced_witness :
    ((replace_collection [("stale", ([] : List Entry))]
        (aggregate_industry_production [SeriesRow.mk "abc" "janeiro 2020" 1])).map Prod.fst =
      (series_by_cls [SeriesRow.mk "abc" "janeiro 2020" 1]).map (fun p => slugify p.1)) ∧
    (∀ k, k ∉ (series_by_cls [SeriesRow.mk "abc" "janeiro 2020" 1]).map
        (fun p => slugify p.1) →
      k ∉ (replace_collection [("stale", ([] : List Entry))]
        (aggregate_industry_production [SeriesRow.mk "abc" "janeiro 2020" 1])).map
          Prod.fst) :=
  ⟨((per_classification_collections_replaced.1 [("stale", [])]
      [SeriesRow.mk "abc" "janeiro 2020" 1]).1),
   ((per_classification_collections_replaced.1 [("stale", [])]
      [SeriesRow.mk "abc" "janeiro 2020" 1]).2.1)⟩

theorem ranking_take_spec (g : List (String × ℚ)) (n : ℕ)
    (hnd : (g.map Prod.snd).Nodup) :
    ((List.insertionSort valGe g).take n).length = min n g.length ∧
    List.Pairwise (fun a b : String × ℚ => b.2 < a.2) ((List.insertionSort valGe g).take n) ∧
    (∀ p ∈ (List.insertionSort valGe g).take n, p ∈ g) ∧
    (∀ p ∈ (List.insertionSort valGe g).take n, ∀ q ∈ g,
      q ∉ (List.insertionSort valGe g).take n → q.2 < p.2) := by
  have hperm : (List.insertionSort valGe g).Perm g := List.perm_insertionSort valGe g
  have hsorted : List.Pairwise valGe (List.insertionSort valGe g) :=
    List.sorted_insertionSort valGe g
  have hndr : ((List.insertionSort valGe g).map Prod.snd).Nodup :=
    (List.Perm.nodup_iff (hperm.map Prod.snd)).mpr hnd
  have hne : List.Pairwise (fun a b : String × ℚ => a.2 ≠ b.2)
      (List.insertionSort valGe g) := List.pairwise_map.mp hndr
  refine ⟨?_, ?_, ?_, ?_⟩
  · rw [List.length_take, hperm.length_eq]
  · have h1 : List.Pairwise valGe ((List.insertionSort valGe g).take n) :=
      List.Pairwise.sublist (List.take_sublist n _) hsorted
    have h2 : List.Pairwise (fun a b : String × ℚ => a.2 ≠ b.2)
        ((List.insertionSort valGe g).take n) :=
      List.Pairwise.sublist (List.take_sublist n _) hne
    exact (h1.and h2).imp (fun hab => lt_of_le_of_ne hab.1 (fun he => hab.2 he.symm))
  · intro p hp
    exact hperm.subset (List.mem_of_mem_take hp)
  · intro p hp q hq hqn
    have hqr : q ∈ List.insertionSort valGe g := (hperm.symm.subset) hq
    have hqd : q ∈ (List.insertionSort valGe g).drop n := by
      rcases List.mem_append.mp
          ((List.take_append_drop n (List.insertionSort valGe g)) ▸ hqr) with h2 | h2
      · exact absurd h2 hqn
      · exact h2
    have hsplit := (List.take_append_drop n (List.insertionSort valGe g)) ▸ hsorted
    have hcross := (List.pairwise_append.mp hsplit).2.2 p hp q hqd
    have hsplit2 := (List.take_append_drop n (List.insertionSort valGe g)) ▸ hne
    have hcross2 := (List.pairwise_append.mp hsplit2).2.2 p hp q hqd
    exact lt_of_le_of_ne hcross (fun he => hcross2 he.symm)

/-- C8: each of the two top-N service ranking queries returns, for any
`top_n` and any input whose per-segment sums are pairwise distinct,
exactly the `top_n` highest-summed segments (all of them when fewer than
`top_n` exist), in strictly descending order of summed value, every
returned pair being one of the grouped sums and strictly dominating every
grouped sum left out. -/
theorem service_rankings_top_n (rows : List SeriesRow) (year : String) (top_n : ℕ)
    (hnd : ((group_add (fun r => r.cls) (fun r => r.value) []
      (rows.filter (fun r => sql_like_contains r.raw_date year))).map Prod.snd).Nodup) :
    ((service_volume_ranking rows year top_n).length =
      min top_n (group_add (fun r => r.cls) (fun r => r.value) []
        (rows.filter (fun r => sql_like_contains r.raw_date year))).length ∧
    List.Pairwise (fun a b : String × ℚ => b.2 < a.2)
      (service_volume_ranking rows year top_n) ∧
    (∀ p ∈ service_volume_ranking rows year top_n,
      p ∈ group_add (fun r => r.cls) (fun r => r.value) []
        (rows.filter (fun r => sql_like_contains r.raw_date year))) ∧
    (∀ p ∈ service_volume_ranking rows year top_n,
      ∀ q ∈ group_add (fun r => r.cls) (fun r => r.value) []
        (rows.filter (fun r => sql_like_contains r.raw_date year)),
        q ∉ service_volume_ranking rows year top_n → q.2 < p.2)) ∧
    ((service_revenue_ranking rows year top_n).length =
      min top_n (group_add (fun r => r.cls) (fun r => r.value) []
        (rows.filter (fun r => sql_like_contains r.raw_date year))).length ∧
    List.Pairwise (fun a b : String × ℚ => b.2 < a.2)
      (service_revenue_ranking rows year top_n) ∧
    (∀ p ∈ service_revenue_ranking rows year top_n,
      p ∈ group_add (fun r => r.cls) (fun r => r.value) []
        (rows.filter (fun r => sql_like_contains r.raw_date year))) ∧
    (∀ p ∈ service_revenue_ranking rows year top_n,
      ∀ q ∈ group_add (fun r => r.cls) (fun r => r.value) []
        (rows.filter (fun r => sql_like_contains r.raw_date year)),
        q ∉ service_revenue_ranking rows year top_n → q.2 < p.2)) :=
  ⟨ranking_take_spec _ top_n hnd, ranking_take_spec _ top_n hnd⟩

/-- Witness for C8 over segments A:300, B:200, C:100 with top 2: the
ranking is exactly `[(A, 300), (B, 200)]`, in descending order. -/
theorem service_rankings_top_n_witness :
    (((group_add (fun r => r.cls) (fun r => r.value) []
      ([SeriesRow.mk "A" "x 2020" 300, SeriesRow.mk "B" "x 2020" 200,
        SeriesRow.mk "C" "x 2020" 100].filter
        (fun r => sql_like_contains r.raw_date "2020"))).map Prod.snd).Nodup) ∧
    (service_volume_ranking [SeriesRow.mk "A" "x 2020" 300, SeriesRow.mk "B" "x 2020" 200,
        SeriesRow.mk "C" "x 2020" 100] "2020" 2).length =
      min 2 (group_add (fun r => r.cls) (fun r => r.value) []
        ([SeriesRow.mk "A" "x 2020" 300, SeriesRow.mk "B" "x 2020" 200,
          SeriesRow.mk "C" "x 2020" 100].filter
          (fun r => sql_like_contains r.raw_date "2020"))).length ∧
    List.Pairwise (fun a b : String × ℚ => b.2 < a.2)
      (service_volume_ranking [SeriesRow.mk "A" "x 2020" 300, SeriesRow.mk "B" "x 2020" 200,
        SeriesRow.mk "C" "x 2020" 100] "2020" 2) ∧
    service_volume_ranking [SeriesRow.mk "A" "x 2020" 300, SeriesRow.mk "B" "x 2020" 200,
        SeriesRow.mk "C" "x 2020" 100] "2020" 2 = [("A", 300), ("B", 200)] := by
  have hlike : sql_like_contains "x 2020" "2020" = true := by decide
  have hf : [SeriesRow.mk "A" "x 2020" 300, SeriesRow.mk "B" "x 2020" 200,
      SeriesRow.mk "C" "x 2020" 100].filter
      (fun r => sql_like_contains r.raw_date "2020") =
      [SeriesRow.mk "A" "x 2020" 300, SeriesRow.mk "B" "x 2020" 200,
        SeriesRow.mk "C" "x 2020" 100] := by
    simp [List.filter, hlike]
  have hg : group_add (fun r : SeriesRow => r.cls) (fun r => r.value) []
      ([SeriesRow.mk "A" "x 2020" 300, SeriesRow.mk "B" "x 2020" 200,
        SeriesRow.mk "C" "x 2020" 100].filter
        (fun r => sql_like_contains r.raw_date "2020")) =
      [("A", (300 : ℚ)), ("B", 200), ("C", 100)] := by
    rw [hf]
    norm_num [group_add, dget, dset, (by decide : ("A" : String) ≠ "B"),
      (by decide : ("A" : String) ≠ "C"), (by decide : ("B" : String) ≠ "C"),
      (by decide : ("B" : String) ≠ "A"), (by decide : ("C" : String) ≠ "A"),
      (by decide : ("C" : String) ≠ "B")]
  have hnd : (((group_add (fun r : SeriesRow => r.cls) (fun r => r.value) []
      ([SeriesRow.mk "A" "x 2020" 300, SeriesRow.mk "B" "x 2020" 200,
        SeriesRow.mk "C" "x 2020" 100].filter
        (fun r => sql_like_contains r.raw_date "2020"))).map Prod.snd).Nodup) := by
    rw [hg]
    norm_num
  have hthm := service_rankings_top_n [SeriesRow.mk "A" "x 2020" 300,
    SeriesRow.mk "B" "x 2020" 200, SeriesRow.mk "C" "x 2020" 100] "2020" 2 hnd
  refine ⟨hnd, hthm.1.1, hthm.1.2.1, ?_⟩
  show (List.insertionSort valGe (group_add (fun r : SeriesRow => r.cls) (fun r => r.value) []
    ([SeriesRow.mk "A" "x 2020" 300, SeriesRow.mk "B" "x 2020" 200,
      SeriesRow.mk "C" "x 2020" 100].filter
      (fun r => sql_like_contains r.raw_date "2020")))).take 2 = [("A", 300), ("B", 200)]
  rw [hg]
  norm_num [List.insertionSort, List.orderedInsert, valGe]

/-- The summed raw value of a `(key, value)` table at one key. -/
def date_total (t : List (String × ℚ)) (d : String) : ℚ :=
  ((t.filter (fun p => p.1 = d)).map Prod.snd).sum

/-- The summed raw value contributed by the rows of one period to one
resolved division bucket of the grouped revenue/expense view. -/
def division_total_grouped (t : List DivRow) (d ty : String) : ℚ :=
  ((t.filter (fun r => r.date = d ∧ get_division_name_grouped r.type_code = ty)).map
    DivRow.volume).sum

theorem mem_dset_cases {K V : Type} [DecidableEq K] (m : List (K × V)) (k : K) (v : V)
    (p : K × V) (h : p ∈ dset m k v) : p = (k, v) ∨ p ∈ m := by
  revert h
  induction m with
  | nil =>
    intro h
    simpa [dset] using h
  | cons q m ih =>
    obtain ⟨k1, v1⟩ := q
    intro h
    by_cases hk : k1 = k
    · subst hk
      simp [dset] at h
      rcases h with h | h
      · exact Or.inl h
      · exact Or.inr (List.mem_cons_of_mem _ h)
    · simp [dset, hk] at h
      rcases h with h | h
      · exact Or.inr (by simp [h])
      · rcases ih h with h2 | h2
        · exact Or.inl h2
        · exact Or.inr (List.mem_cons_of_mem _ h2)

theorem filter_sum_dset_add {K : Type} [DecidableEq K] (m : List (K × ℚ)) (k : K) (v : ℚ)
    (q : K → Bool) :
    (((dset m k ((dget m k).getD 0 + v)).filter (fun p => q p.1)).map Prod.snd).sum =
      ((m.filter (fun p => q p.1)).map Prod.snd).sum + (if q k then v else 0) := by
  induction m with
  | nil =>
    simp only [dset, dget, Option.getD_none, List.filter_nil, List.map_nil, List.sum_nil]
    by_cases hq : q k = true
    · simp [List.filter, hq]
    · simp only [Bool.not_eq_true] at hq
      simp [List.filter, hq]
  | cons p m ih =>
    obtain ⟨k1, v1⟩ := p
    by_cases hk : k1 = k
    · subst hk
      simp only [dset, dget, if_pos rfl, Option.getD_some]
      by_cases hq : q k1 = true
      · simp [List.filter_cons, hq]
        ring
      · simp only [Bool.not_eq_true] at hq
        simp [List.filter_cons, hq]
    · have hgd : dget ((k1, v1) :: m) k = dget m k := by simp [dget, hk]
      simp only [dset, if_neg hk, hgd]
      by_cases hq : q k1 = true
      · simp only [List.filter_cons, hq, if_true, List.map_cons, List.sum_cons, ih]
        ring
      · simp only [Bool.not_eq_true] at hq
        simp only [List.filter_cons, hq, Bool.false_eq_true, if_false, ih]

theorem group_add_filter_sum {α K : Type} [DecidableEq K] (key : α → K) (val : α → ℚ)
    (q : K → Bool) (rows : List α) (init : List (K × ℚ)) :
    (((group_add key val init rows).filter (fun p => q p.1)).map Prod.snd).sum =
      ((init.filter (fun p => q p.1)).map Prod.snd).sum +
        ((rows.filter (fun r => q (key r))).map val).sum := by
  induction rows generalizing init with
  | nil => simp [group_add]
  | cons r rows ih =>
    have hstep : group_add key val init (r :: rows) =
        group_add key val (dset init (key r) ((dget init (key r)).getD 0 + val r)) rows := rfl
    rw [hstep, ih, filter_sum_dset_add]
    by_cases hq : q (key r) = true
    · simp only [List.filter_cons, hq, if_true, List.map_cons, List.sum_cons]
      ring
    · simp only [Bool.not_eq_true] at hq
      simp only [List.filter_cons, hq, Bool.false_eq_true, if_false, add_zero]

theorem sql_sum_by_type_date_filter_sum (t : List DivRow) (q : String × String → Bool) :
    (((sql_sum_by_type_date t).filter (fun p => q p.1)).map Prod.snd).sum =
      ((t.filter (fun r => q (r.type_code, r.date))).map DivRow.volume).sum := by
  have h := group_add_filter_sum (fun r : DivRow => (r.type_code, r.date))
    (fun r => r.volume) q t []
  simpa [sql_sum_by_type_date] using h

theorem inner_get_fold (name : String) (rows : List ((String × String) × ℚ))
    (init : List (String × List ((String × String) × ℚ))) (d : String)
    (kk : String × String) :
    inner_get (rows.foldl (re_grouped_step name) init) d kk =
      if (d, kk) ∈ rows.map
          (fun row => (row.1.2, (name, get_division_name_grouped row.1.1)))
      then some ((inner_get init d kk).getD 0 +
        ((rows.filter (fun row =>
          row.1.2 = d ∧ (name, get_division_name_grouped row.1.1) = kk)).map Prod.snd).sum)
      else inner_get init d kk := by
  induction rows generalizing init with
  | nil => simp
  | cons row rows ih =>
    rw [List.foldl_cons, ih]
    have hstep : ∀ d2 kk2, inner_get (re_grouped_step name init row) d2 kk2 =
        if row.1.2 = d2 then
          (if (name, get_division_name_grouped row.1.1) = kk2 then
            some ((inner_get init d2 kk2).getD 0 + row.2)
          else inner_get init d2 kk2)
        else inner_get init d2 kk2 := by
      intro d2 kk2
      unfold re_grouped_step inner_get
      by_cases hd : row.1.2 = d2
      · rw [if_pos hd]
        subst hd
        rw [dget_dset_self]
        simp only [Option.some_bind]
        by_cases hkk : (name, get_division_name_grouped row.1.1) = kk2
        · rw [if_pos hkk]
          subst hkk
          rw [dget_dset_self]
          cases hdg : dget init row.1.2 with
          | none => simp [hdg, dget]
          | some inner => simp [hdg]
        · rw [if_neg hkk]
          rw [dget_dset_ne _ _ _ _ hkk]
          cases hdg : dget init row.1.2 with
          | none => simp [hdg, dget]
          | some inner => simp [hdg]
      · rw [if_neg hd]
        rw [dget_dset_ne _ _ _ _ hd]
    by_cases hd : row.1.2 = d
    · by_cases hkk : (name, get_division_name_grouped row.1.1) = kk
      · have hm2 : (d, kk) ∈ (row :: rows).map
            (fun r2 => (r2.1.2, (name, get_division_name_grouped r2.1.1))) :=
          List.mem_map.mpr ⟨row, List.mem_cons_self row rows, by rw [hd, hkk]⟩
        rw [if_pos hm2]
        rw [List.filter_cons_of_pos (by simp [hd, hkk]), List.map_cons, List.sum_cons]
        by_cases hmem : (d, kk) ∈ rows.map
            (fun r2 => (r2.1.2, (name, get_division_name_grouped r2.1.1)))
        · rw [if_pos hmem, hstep d kk, if_pos hd, if_pos hkk]
          simp only [Option.getD_some]
          rw [add_assoc]
        · rw [if_neg hmem, hstep d kk, if_pos hd, if_pos hkk]
          have hnil : rows.filter (fun r2 =>
              r2.1.2 = d ∧ (name, get_division_name_grouped r2.1.1) = kk) = [] := by
            rw [List.filter_eq_nil_iff]
            intro a ha
            simp only [decide_eq_true_eq, not_and]
            intro ha1 ha2
            exact hmem (List.mem_map.mpr ⟨a, ha, by rw [ha1, ha2]⟩)
          rw [hnil]
          simp
      · have hmemc : ((d, kk) ∈ (row :: rows).map
            (fun r2 => (r2.1.2, (name, get_division_name_grouped r2.1.1)))) ↔
            ((d, kk) ∈ rows.map
              (fun r2 => (r2.1.2, (name, get_division_name_grouped r2.1.1)))) := by
          simp only [List.map_cons, List.mem_cons, Prod.mk.injEq]
          constructor
          · rintro (⟨h1, h2⟩ | h2)
            · exact absurd h2.symm hkk
            · exact h2
          · exact fun h2 => Or.inr h2
        rw [List.filter_cons_of_neg (by simp [hkk])]
        by_cases hmem : (d, kk) ∈ rows.map
            (fun r2 => (r2.1.2, (name, get_division_name_grouped r2.1.1)))
        · rw [if_pos hmem, if_pos (hmemc.mpr hmem), hstep d kk, if_pos hd, if_neg hkk]
        · rw [if_neg hmem, if_neg (fun h2 => hmem (hmemc.mp h2)), hstep d kk, if_pos hd,
            if_neg hkk]
    · have hmemc : ((d, kk) ∈ (row :: rows).map
          (fun r2 => (r2.1.2, (name, get_division_name_grouped r2.1.1)))) ↔
          ((d, kk) ∈ rows.map
            (fun r2 => (r2.1.2, (name, get_division_name_grouped r2.1.1)))) := by
        simp only [List.map_cons, List.mem_cons, Prod.mk.injEq]
        constructor
        · rintro (⟨h1, h2⟩ | h2)
          · exact absurd h1.symm hd
          · exact h2
        · exact fun h2 => Or.inr h2
      rw [List.filter_cons_of_neg (by simp [hd])]
      by_cases hmem : (d, kk) ∈ rows.map
          (fun r2 => (r2.1.2, (name, get_division_name_grouped r2.1.1)))
      · rw [if_pos hmem, if_pos (hmemc.mpr hmem), hstep d kk, if_neg hd]
      · rw [if_neg hmem, if_neg (fun h2 => hmem (hmemc.mp h2)), hstep d kk, if_neg hd]

theorem nodup_dkeys_group_add {α K : Type} [DecidableEq K] (key : α → K) (val : α → ℚ)
    (rows : List α) (init : List (K × ℚ)) (h : (dkeys init).Nodup) :
    (dkeys (group_add key val init rows)).Nodup := by
  induction rows generalizing init with
  | nil => simpa [group_add]
  | cons r rows ih =>
    have hstep : group_add key val init (r :: rows) =
        group_add key val (dset init (key r) ((dget init (key r)).getD 0 + val r)) rows := rfl
    rw [hstep]
    exact ih _ (nodup_dkeys_dset _ _ _ h)

theorem sql_sum_by_date_val (t : List (String × ℚ)) (q : String × ℚ)
    (hq : q ∈ sql_sum_by_date t) : q.2 = date_total t q.1 := by
  have hnd : (dkeys (sql_sum_by_date t)).Nodup :=
    nodup_dkeys_group_add _ _ _ _ (by simp [dkeys])
  have hdg : dget (sql_sum_by_date t) q.1 = some q.2 :=
    dget_eq_of_mem_nodup _ _ _ hq hnd
  rw [sql_sum_by_date, dget_group_add] at hdg
  split at hdg
  · simp only [dget, Option.getD_none, Option.some.injEq] at hdg
    rw [← hdg, date_total, zero_add]
  · exact absurd hdg (by simp [dget])

theorem commerce_volume_doc_values (t : List (String × ℚ)) (p : String × VolumeDoc)
    (hp : p ∈ aggregate_commerce_volume t) :
    p.2.date = p.1 ∧ p.2.value = date_total t p.1 := by
  unfold aggregate_commerce_volume at hp
  obtain ⟨q, hq, hqp⟩ := List.mem_map.mp hp
  have hval := sql_sum_by_date_val t q hq
  have h1 : p.1 = q.1 := by rw [← hqp]
  have h2 : p.2 = VolumeDoc.mk q.1 q.2 := by rw [← hqp]
  rw [h1, h2, hval]
  exact ⟨rfl, rfl⟩

theorem revenue_expense_year_items (rev exp : List (String × ℚ)) (d : String)
    (items : List REItem)
    (hd : dget (aggregate_commerce_revenue_expense_year rev exp) d = some items) :
    ∀ it ∈ items, it.date = d ∧
      ((it.name = "revenue" ∧ it.value = pyRound2 (date_total rev d / 1000000)) ∨
       (it.name = "expense" ∧ it.value = pyRound2 (date_total exp d / 1000000))) := by
  unfold aggregate_commerce_revenue_expense_year at hd
  rw [dget_group_append] at hd
  have hrev : ∀ it ∈ ((sql_sum_by_date rev).filter
      (fun r => Prod.fst r = d)).map
      (fun p => REItem.mk p.1 "revenue" (pyRound2 (p.2 / 1000000))),
      it.date = d ∧
        ((it.name = "revenue" ∧ it.value = pyRound2 (date_total rev d / 1000000)) ∨
         (it.name = "expense" ∧ it.value = pyRound2 (date_total exp d / 1000000))) := by
    intro it hit
    obtain ⟨q, hqf, hqit⟩ := List.mem_map.mp hit
    have hq1 : q.1 = d := by
      have := List.of_mem_filter hqf
      simpa using this
    have hq2 := sql_sum_by_date_val rev q (List.mem_of_mem_filter hqf)
    rw [← hqit, hq2, hq1]
    exact ⟨rfl, Or.inl ⟨rfl, rfl⟩⟩
  have hexp : ∀ it ∈ ((sql_sum_by_date exp).filter
      (fun r => Prod.fst r = d)).map
      (fun p => REItem.mk p.1 "expense" (pyRound2 (p.2 / 1000000))),
      it.date = d ∧
        ((it.name = "revenue" ∧ it.value = pyRound2 (date_total rev d / 1000000)) ∨
         (it.name = "expense" ∧ it.value = pyRound2 (date_total exp d / 1000000))) := by
    intro it hit
    obtain ⟨q, hqf, hqit⟩ := List.mem_map.mp hit
    have hq1 : q.1 = d := by
      have := List.of_mem_filter hqf
      simpa using this
    have hq2 := sql_sum_by_date_val exp q (List.mem_of_mem_filter hqf)
    rw [← hqit, hq2, hq1]
    exact ⟨rfl, Or.inr ⟨rfl, rfl⟩⟩
  split at hd
  · rw [dget_group_append] at hd
    split at hd
    · simp only [dget, Option.getD_none, List.nil_append, Option.getD_some,
        Option.some.injEq] at hd
      intro it hit
      rw [← hd] at hit
      rcases List.mem_append.mp hit with h2 | h2
      · exact hrev it h2
      · exact hexp it h2
    · simp only [dget, Option.getD_none, Option.some.injEq] at hd
      intro it hit
      rw [← hd] at hit
      exact hexp it hit
  · rw [dget_group_append] at hd
    split at hd
    · simp only [dget, Option.getD_none, List.nil_append, Option.some.injEq] at hd
      intro it hit
      rw [← hd] at hit
      exact hrev it hit
    · exact absurd hd (by simp [dget])

theorem dget_map_values {K A B : Type} [DecidableEq K] (m : List (K × A)) (f : K → A → B)
    (k : K) :
    dget (m.map (fun p => (p.1, f p.1 p.2))) k = (dget m k).map (f k) := by
  induction m with
  | nil => rfl
  | cons p m ih =>
    obtain ⟨k1, a⟩ := p
    by_cases hk : k1 = k
    · subst hk
      simp [dget]
    · simp [dget, hk, ih]

theorem outer_nodup_fold (name : String) (rows : List ((String × String) × ℚ))
    (init : List (String × List ((String × String) × ℚ)))
    (h : (dkeys init).Nodup) :
    (dkeys (rows.foldl (re_grouped_step name) init)).Nodup := by
  induction rows generalizing init with
  | nil => simpa
  | cons row rows ih =>
    rw [List.foldl_cons]
    exact ih _ (nodup_dkeys_dset _ _ _ h)

theorem inner_nodup_fold (name : String) (rows : List ((String × String) × ℚ))
    (init : List (String × List ((String × String) × ℚ)))
    (h : ∀ p ∈ init, (dkeys p.2).Nodup) :
    ∀ p ∈ rows.foldl (re_grouped_step name) init, (dkeys p.2).Nodup := by
  induction rows generalizing init with
  | nil => exact h
  | cons row rows ih =>
    rw [List.foldl_cons]
    refine ih _ ?_
    intro p hp
    rcases mem_dset_cases _ _ _ _ hp with h2 | h2
    · subst h2
      refine nodup_dkeys_dset _ _ _ ?_
      cases hdg : dget init row.1.2 with
      | none => simp [hdg, dkeys]
      | some inner =>
        simp only [hdg, Option.getD_some]
        exact h (row.1.2, inner) (dget_some_mem _ _ _ hdg)
    · exact h p h2

theorem grouped_sum_collapse (t : List DivRow) (d name ty : String) :
    (((sql_sum_by_type_date t).filter (fun row =>
      row.1.2 = d ∧ (name, get_division_name_grouped row.1.1) = (name, ty))).map
        Prod.snd).sum = division_total_grouped t d ty := by
  have h := sql_sum_by_type_date_filter_sum t
    (fun kk => decide (kk.2 = d ∧ (name, get_division_name_grouped kk.1) = (name, ty)))
  have h2 : (((sql_sum_by_type_date t).filter (fun row =>
      row.1.2 = d ∧ (name, get_division_name_grouped row.1.1) = (name, ty))).map
        Prod.snd).sum =
      ((t.filter (fun r =>
        r.date = d ∧ (name, get_division_name_grouped r.type_code) = (name, ty))).map
          DivRow.volume).sum := by
    simpa using h
  rw [h2]
  unfold division_total_grouped
  congr 1
  apply congrArg
  apply List.filter_congr
  intro r _
  simp

theorem inner_get_nil (d : String) (kk : String × String) :
    inner_get [] d kk = none := rfl

theorem revenue_expense_grouped_items (rev exp : List DivRow) (d : String)
    (items : List REGItem)
    (hd : dget (aggregate_commerce_revenue_expense_grouped rev exp) d = some items) :
    ∀ it ∈ items, it.date = d ∧
      ((it.name = "revenue" ∧
        it.value = pyRound2 (division_total_grouped rev d it.type_name / 1000000)) ∨
       (it.name = "expense" ∧
        it.value = pyRound2 (division_total_grouped exp d it.type_name / 1000000))) := by
  unfold aggregate_commerce_revenue_expense_grouped at hd
  rw [dget_map_values (aggregated_by_date rev exp)
    (fun k a => a.map (fun q => REGItem.mk k q.1.1 q.1.2 (pyRound2 (q.2 / 1000000)))) d] at hd
  obtain ⟨inner, hinner, hitems⟩ := Option.map_eq_some'.mp hd
  intro it hit
  rw [← hitems] at hit
  obtain ⟨q, hq_in, hq_it⟩ := List.mem_map.mp hit
  have hinner_nodup : (dkeys inner).Nodup := by
    have hmid : ∀ p ∈ (sql_sum_by_type_date rev).foldl (re_grouped_step "revenue")
        ([] : List (String × List ((String × String) × ℚ))), (dkeys p.2).Nodup :=
      inner_nodup_fold "revenue" _ _ (by intro p hp; cases hp)
    have hall := inner_nodup_fold "expense" (sql_sum_by_type_date exp) _ hmid
    exact hall (d, inner) (dget_some_mem _ _ _ (by
      have : dget (aggregated_by_date rev exp) d = some inner := hinner
      exact this))
  have hqe : (q.1, q.2) ∈ inner := hq_in
  have hig : inner_get (aggregated_by_date rev exp) d q.1 = some q.2 := by
    unfold inner_get
    rw [hinner]
    simpa using dget_eq_of_mem_nodup _ _ _ hqe hinner_nodup
  unfold aggregated_by_date at hig
  rw [inner_get_fold] at hig
  split at hig
  · rename_i hmemE
    have hq11 : q.1.1 = "expense" := by
      obtain ⟨row, _, hrow⟩ := List.mem_map.mp hmemE
      have h2 := congrArg (fun p : String × String × String => p.2.1) hrow
      simpa using h2.symm
    have hmidnone : inner_get ((sql_sum_by_type_date rev).foldl (re_grouped_step "revenue")
        []) d q.1 = none := by
      rw [inner_get_fold]
      have hnm : (d, q.1) ∉ (sql_sum_by_type_date rev).map
          (fun row => (row.1.2, ("revenue", get_division_name_grouped row.1.1))) := by
        intro hmem
        obtain ⟨row, _, hrow⟩ := List.mem_map.mp hmem
        have h2 := congrArg (fun p : String × String × String => p.2.1) hrow
        simp only at h2
        have h3 : ("revenue" : String) = "expense" := h2.trans hq11
        exact absurd h3 (by decide)
      rw [if_neg hnm, inner_get_nil]
    rw [hmidnone] at hig
    simp only [Option.getD_none, Option.some.injEq] at hig
    have hq1pair : q.1 = ("expense", q.1.2) := by
      conv_lhs => rw [← Prod.mk.eta (p := q.1)]
      rw [hq11]
    have hsum : q.2 = division_total_grouped exp d q.1.2 := by
      rw [hq1pair] at hig
      rw [← hig, zero_add, grouped_sum_collapse]
    have hitval : it = REGItem.mk d q.1.1 q.1.2 (pyRound2 (q.2 / 1000000)) := by
      rw [← hq_it]
    rw [hitval]
    refine ⟨rfl, Or.inr ⟨hq11, ?_⟩⟩
    simp only [hq11, hsum]
  · rename_i hmemE
    rw [inner_get_fold] at hig
    split at hig
    · rename_i hmemR
      have hq11 : q.1.1 = "revenue" := by
        obtain ⟨row, _, hrow⟩ := List.mem_map.mp hmemR
        have h2 := congrArg (fun p : String × String × String => p.2.1) hrow
        simpa using h2.symm
      rw [inner_get_nil] at hig
      simp only [Option.getD_none, Option.some.injEq] at hig
      have hq1pair : q.1 = ("revenue", q.1.2) := by
        conv_lhs => rw [← Prod.mk.eta (p := q.1)]
        rw [hq11]
      have hsum : q.2 = division_total_grouped rev d q.1.2 := by
        rw [hq1pair] at hig
        rw [← hig, zero_add, grouped_sum_collapse]
      have hitval : it = REGItem.mk d q.1.1 q.1.2 (pyRound2 (q.2 / 1000000)) := by
        rw [← hq_it]
      rw [hitval]
      refine ⟨rfl, Or.inl ⟨hq11, ?_⟩⟩
      simp only [hq11, hsum]
    · rw [inner_get_nil] at hig
      exact absurd hig (by simp)

theorem series_entry_source (rows : List SeriesRow) (q : String × List Entry)
    (hq : q ∈ series_by_cls rows) :
    ∀ e ∈ q.2, ∃ r ∈ rows, e.value = pyRound2 r.value := by
  intro e he
  have hnd := nodup_dkeys_series_by_cls rows
  have hqe : (q.1, q.2) ∈ series_by_cls rows := hq
  have hdg : dget (series_by_cls rows) q.1 = some q.2 := dget_eq_of_mem_nodup _ _ _ hqe hnd
  rw [dget_series_by_cls] at hdg
  split at hdg
  · have heq : ((rows.filterMap month_entry).filter (fun p => p.1 = q.1)).map Prod.snd
        = q.2 := by injection hdg
    rw [← heq] at he
    obtain ⟨p, hpf, hpe⟩ := List.mem_map.mp he
    obtain ⟨r, hr, hrp⟩ := List.mem_filterMap.mp (List.mem_of_mem_filter hpf)
    obtain ⟨dd, _, hfd⟩ := Option.map_eq_some'.mp hrp
    refine ⟨r, hr, ?_⟩
    rw [← hpe, ← hfd]
  · exact absurd hdg (by simp)

theorem industry_production_entries_rounded (rows : List SeriesRow)
    (doc : String × List Entry) (hdoc : doc ∈ aggregate_industry_production rows) :
    ∀ e ∈ doc.2, ∃ r ∈ rows, e.value = pyRound2 r.value := by
  unfold aggregate_industry_production at hdoc
  obtain ⟨q, hq, hqd⟩ := List.mem_map.mp hdoc
  intro e he
  have hdoc2 : doc.2 = sort_by_date q.2 := by rw [← hqd]
  rw [hdoc2] at he
  exact series_entry_source rows q hq e ((List.perm_insertionSort dateLe q.2).subset he)

theorem service_monthly_entries_rounded (rows : List SeriesRow)
    (doc : String × List Entry) (hdoc : doc ∈ aggregate_service_volume_monthly rows) :
    ∀ e ∈ doc.2, ∃ r ∈ rows, e.value = pyRound2 r.value := by
  unfold aggregate_service_volume_monthly at hdoc
  obtain ⟨p, hpfil, hpd⟩ := List.mem_map.mp hdoc
  obtain ⟨q, hq, hqp⟩ := List.mem_map.mp (List.mem_of_mem_filter hpfil)
  intro e he
  have hdoc2 : doc.2 = sort_by_date q.2 := by rw [← hpd, ← hqp]
  rw [hdoc2] at he
  exact series_entry_source rows q hq e ((List.perm_insertionSort dateLe q.2).subset he)

/-- C6 (counterexample): the claim says every view other than the two
combined revenue/expense views emits raw values rounded to 2 decimals,
but `aggregate_commerce_volume` emits the raw sum unrounded: on the raw
volume `1/8 = 0.125` (exactly representable as a float) the emitted value
is `0.125`, which is not equal to `round(0.125, 2) = 0.12`. -/
theorem commerce_volume_unrounded_counterexample :
    aggregate_commerce_volume [("2020", 1/8)] = [("2020", VolumeDoc.mk "2020" (1/8))] ∧
    pyRound2 (1/8 : ℚ) ≠ (1/8 : ℚ) := by
  constructor
  · norm_num [aggregate_commerce_volume, sql_sum_by_date, group_add, dget, dset]
  · norm_num [pyRound2, round_half_even]

/-- C6 (amended): the division by 1,000,000 with rounding to 2 decimals
happens exactly in the two commerce combined revenue/expense views, whose
every emitted value equals `round(summed raw value / 1_000_000, 2)`; in
particular revenue 1,234,567 and expense 234,567 come out as 1.23 and
0.23.  The other views keep raw units and do not scale: the industry and
service series views round their raw values to 2 decimals, while the
commerce volume view emits the raw sum unrounded. -/
theorem million_scaling_amended :
    (∀ (rev exp : List (String × ℚ)) (d : String) (items : List REItem),
      dget (aggregate_commerce_revenue_expense_year rev exp) d = some items →
      ∀ it ∈ items, it.date = d ∧
        ((it.name = "revenue" ∧ it.value = pyRound2 (date_total rev d / 1000000)) ∨
         (it.name = "expense" ∧ it.value = pyRound2 (date_total exp d / 1000000)))) ∧
    (∀ (rev exp : List DivRow) (d : String) (items : List REGItem),
      dget (aggregate_commerce_revenue_expense_grouped rev exp) d = some items →
      ∀ it ∈ items, it.date = d ∧
        ((it.name = "revenue" ∧
          it.value = pyRound2 (division_total_grouped rev d it.type_name / 1000000)) ∨
         (it.name = "expense" ∧
          it.value = pyRound2 (division_total_grouped exp d it.type_name / 1000000)))) ∧
    (dget (aggregate_commerce_revenue_expense_year [("2020", 1234567)] [("2020", 234567)])
      "2020" =
      some [REItem.mk "2020" "revenue" (123/100), REItem.mk "2020" "expense" (23/100)]) ∧
    (∀ (t : List (String × ℚ)) (p : String × VolumeDoc), p ∈ aggregate_commerce_volume t →
      p.2.date = p.1 ∧ p.2.value = date_total t p.1) ∧
    (∀ (rows : List SeriesRow) (doc : String × List Entry),
      doc ∈ aggregate_industry_production rows →
      ∀ e ∈ doc.2, ∃ r ∈ rows, e.value = pyRound2 r.value) ∧
    (∀ (rows : List SeriesRow) (doc : String × List Entry),
      doc ∈ aggregate_service_volume_monthly rows →
      ∀ e ∈ doc.2, ∃ r ∈ rows, e.value = pyRound2 r.value) := by
  refine ⟨revenue_expense_year_items, revenue_expense_grouped_items, ?_,
    commerce_volume_doc_values, industry_production_entries_rounded,
    service_monthly_entries_rounded⟩
  have h1 : pyRound2 ((1234567 : ℚ) / 1000000) = 123/100 := by
    norm_num [pyRound2, round_half_even]
  have h2 : pyRound2 ((234567 : ℚ) / 1000000) = 23/100 := by
    norm_num [pyRound2, round_half_even]
  simp [aggregate_commerce_revenue_expense_year, sql_sum_by_date, group_add, group_append,
    dappend, dget, dset, h1, h2]

/-- Witness for the amended C6 theorem, instantiating the year-view clause
at the concrete example through the theorem's own computed document. -/
theorem million_scaling_amended_witness :
    (REItem.mk "2020" "revenue" (123/100)).date = "2020" ∧
    (((REItem.mk "2020" "revenue" (123/100)).name = "revenue" ∧
      (REItem.mk "2020" "revenue" (123/100)).value =
        pyRound2 (date_total [("2020", 1234567)] "2020" / 1000000)) ∨
     ((REItem.mk "2020" "revenue" (123/100)).name = "expense" ∧
      (REItem.mk "2020" "revenue" (123/100)).value =
        pyRound2 (date_total [("2020", 234567)] "2020" / 1000000))) :=
  million_scaling_amended.1 [("2020", 1234567)] [("2020", 234567)] "2020"
    [REItem.mk "2020" "revenue" (123/100), REItem.mk "2020" "expense" (23/100)]
    million_scaling_amended.2.2.1
    (REItem.mk "2020" "revenue" (123/100)) (List.mem_cons_self _ _)

end Ecotrack
